import Mathlib

/-!
Verification of the LEON3 debug-probe driver core (AHBJTAG bridge and DSU3
debug control layer) against its natural-language specification.

The Rust source is shallowly embedded: pure helpers become Lean functions,
the stateful bridge becomes explicit state passing over an `AhbJtagState`
together with a trace of emitted JTAG shifts, and the probe plus wall-clock
environment are abstracted as oracle functions.  Machine integers are
modelled as `Nat` with explicit `% 2^w` where it matters.  Rust `panic!`,
`assert_eq!`, `unreachable!` and `expect` appear as a dedicated `panic`
outcome so that assertion-freedom is a provable statement.
-/

set_option maxRecDepth 4000

/-! ## Error taxonomy (`Leon3Error` in communication_interface.rs) -/

inductive Leon3Error where
  | timeout
  | debugProbe
  | outOfBounds
  | plugnplayFailure
  | dsu3NotFound
  | coreOutOfRange (coreIndex : Nat)
  | invalidRegisterId (id : Nat)
  | resetHaltRequestNotSupported
deriving DecidableEq, Repr

/-! ## Register-id codec (registers.rs) -/

inductive IuCoreReg where
  | g (n : Nat)
  | o (n : Nat)
  | l (n : Nat)
  | i (n : Nat)
deriving DecidableEq, Repr

inductive IuSpecialReg where
  | y
  | psr
  | wim
  | tbr
  | pc
  | npc
  | fsr
  | cpsr
  | asr (n : Nat)
deriving DecidableEq, Repr

inductive FpuReg where
  | f (n : Nat)
deriving DecidableEq, Repr

inductive Leon3RegisterId where
  | iuCore (r : IuCoreReg)
  | iuSpecial (r : IuSpecialReg)
  | fpu (r : FpuReg)
deriving DecidableEq, Repr

/-- `Leon3RegisterId::to_u16` from registers.rs.  Field values are the
`u8` payloads of the Rust enums, so they are taken `% 256` nowhere: the
validity predicate below carries the `u8`-range facts instead. -/
def Leon3RegisterId.to_u16 : Leon3RegisterId → Nat
  | .iuCore r =>
    match r with
    | .g n => 0x0000 + n
    | .o n => 0x0100 + n
    | .l n => 0x0200 + n
    | .i n => 0x0300 + n
  | .iuSpecial r =>
    0x1000 + match r with
    | .y => 0
    | .psr => 1
    | .wim => 2
    | .tbr => 3
    | .pc => 4
    | .npc => 5
    | .fsr => 6
    | .cpsr => 7
    | .asr n => 16 + n
  | .fpu r =>
    match r with
    | .f n => 0x2000 + n

/-- `TryFrom<RegisterId> for Leon3RegisterId` from registers.rs.  The
argument is the 16-bit id value (`RegisterId.0`); `v >>> 12` is the class,
and within class 0 the bank is `v >>> 8` (the class bits are zero there). -/
def Leon3RegisterId.tryFromU16 (v : Nat) : Except Leon3Error Leon3RegisterId :=
  if v / 4096 = 0 then
    if v % 256 > 7 then .error (.invalidRegisterId v)
    else if v / 256 = 0 then .ok (.iuCore (.g (v % 256)))
    else if v / 256 = 1 then .ok (.iuCore (.o (v % 256)))
    else if v / 256 = 2 then .ok (.iuCore (.l (v % 256)))
    else if v / 256 = 3 then .ok (.iuCore (.i (v % 256)))
    else .error (.invalidRegisterId v)
  else if v / 4096 = 1 then
    if v % 256 = 0 then .ok (.iuSpecial .y)
    else if v % 256 = 1 then .ok (.iuSpecial .psr)
    else if v % 256 = 2 then .ok (.iuSpecial .wim)
    else if v % 256 = 3 then .ok (.iuSpecial .tbr)
    else if v % 256 = 4 then .ok (.iuSpecial .pc)
    else if v % 256 = 5 then .ok (.iuSpecial .npc)
    else if v % 256 = 6 then .ok (.iuSpecial .fsr)
    else if v % 256 = 7 then .ok (.iuSpecial .cpsr)
    else if 32 ≤ v % 256 ∧ v % 256 < 48 then .ok (.iuSpecial (.asr (v % 256 - 16)))
    else .error (.invalidRegisterId v)
  else if v / 4096 = 2 then
    .ok (.fpu (.f (v % 256)))
  else .error (.invalidRegisterId v)

/-- The documented range constraints on a 16-bit register id: class 0
requires bank 0..3 and index 0..7; class 1 requires selector 0..7 or
32..47; class 2 carries an F index (any 8-bit value). -/
def validRegisterIdU16 (v : Nat) : Prop :=
  (v / 4096 = 0 ∧ v / 256 ≤ 3 ∧ v % 256 ≤ 7) ∨
  (v / 4096 = 1 ∧ (v % 256 ≤ 7 ∨ (32 ≤ v % 256 ∧ v % 256 < 48))) ∨
  (v / 4096 = 2)

instance (v : Nat) : Decidable (validRegisterIdU16 v) := by
  unfold validRegisterIdU16; infer_instance

/-- The in-range `Leon3RegisterId` values: window indices 0..7,
ASR numbers 16..31, FPU indices 0..255 (a `u8` in the source). -/
def Leon3RegisterId.valid : Leon3RegisterId → Prop
  | .iuCore r =>
    match r with
    | .g n => n ≤ 7
    | .o n => n ≤ 7
    | .l n => n ≤ 7
    | .i n => n ≤ 7
  | .iuSpecial r =>
    match r with
    | .asr n => 16 ≤ n ∧ n ≤ 31
    | _ => True
  | .fpu r =>
    match r with
    | .f n => n ≤ 255

/-! ## DSU3 state and first-attach initialisation (dsu3.rs, mod.rs) -/

/-- Register traffic observed over the bridge, at the granularity of the
DSU3 control registers the claims speak about. -/
inductive DsuEvent where
  | readCtrl
  | writeCtrl (v : Nat)
  | readBrss
  | writeBrss (v : Nat)
  | sleepMs (ms : Nat)
  | readPc
deriving DecidableEq, Repr

/-- `Dsu3State` from dsu3.rs. -/
structure Dsu3State where
  baseAddr : Nat
  initialized : Bool
deriving DecidableEq, Repr

def Dsu3State.new (baseAddr : Nat) : Dsu3State :=
  { baseAddr := baseAddr, initialized := false }

/-- `Dsu3::try_attach` from dsu3.rs.  If the state is not yet initialised
it performs one read-modify-write of DSU_CTRL (`modify_dsu_reg` with
`ctrl.set_bw(true)`, i.e. set bit 2) and then sets the flag; otherwise it
touches nothing.  `ctrlVal` is the DSU_CTRL value the read returns. -/
def Dsu3.try_attach (st : Dsu3State) (ctrlVal : Nat) : Dsu3State × List DsuEvent :=
  if st.initialized then (st, [])
  else ({ st with initialized := true },
        [DsuEvent.readCtrl, DsuEvent.writeCtrl (ctrlVal ||| 4)])

/-- `Leon3CoreState` from mod.rs. -/
structure Leon3CoreState where
  initialized : Bool
deriving DecidableEq, Repr

def Leon3CoreState.new : Leon3CoreState := { initialized := false }

/-- `Leon3::new` from mod.rs.  `onFirstAttachResult` is the `Result`
produced by `Leon3CommunicationInterface::on_first_attach` (the DSU_CTRL.BW
read-modify-write over the bridge); the source drops that value on the
floor (`this.interface.on_first_attach();` without `?`) and sets the
`initialized` flag unconditionally.  The returned triple is (result of
`new`, the updated core state, whether `on_first_attach` was invoked). -/
def Leon3.new (st : Leon3CoreState) (onFirstAttachResult : Except Leon3Error Unit) :
    Except Leon3Error Unit × Leon3CoreState × Bool :=
  if st.initialized then (.ok (), st, false)
  else
    -- the Result of on_first_attach is discarded here
    (.ok (), { initialized := true }, true)

/-! ## AHBJTAG bridge data model (ahbjtag.rs) -/

inductive TransactionSize where
  | u8
  | u16
  | u32
deriving DecidableEq, Repr

inductive TransactionKind where
  | rd
  | wr
deriving DecidableEq, Repr

inductive SeqFlag where
  | lastTransaction
  | continuingTransaction
deriving DecidableEq, Repr

/-- `AhbJtagState` from ahbjtag.rs: the width and kind of the currently
open transaction. -/
structure AhbJtagState where
  currentTransactionSize : Option TransactionSize
  currentTransactionKind : Option TransactionKind
deriving DecidableEq, Repr

def AhbJtagState.new : AhbJtagState := ⟨none, none⟩

inductive TransactionData where
  | u8 (d : Nat)
  | u16 (d : Nat)
  | u32 (d : Nat)
deriving DecidableEq, Repr

def TransactionData.size : TransactionData → TransactionSize
  | .u8 _ => .u8
  | .u16 _ => .u16
  | .u32 _ => .u32

/-- `TransactionData::encode` from ahbjtag.rs: a 4-byte buffer, byte 0
first.  `U8` goes into byte 0; `U16` and `U32` are laid out by
`to_be_bytes`.  Payload values are in `u8`/`u16`/`u32` range in the
source, so the byte decomposition takes explicit `%`/`/`. -/
def TransactionData.encode : TransactionData → List Nat
  | .u8 d => [d % 256, 0, 0, 0]
  | .u16 d => [d / 256 % 256, d % 256, 0, 0]
  | .u32 d => [d / 16777216 % 256, d / 65536 % 256, d / 256 % 256, d % 256]

/-- `TransactionData::as_u32` (the non-matching arms `panic!`). -/
def TransactionData.asU32 : TransactionData → Option Nat
  | .u32 d => some d
  | _ => none

/-- `TransactionData::as_u16`. -/
def TransactionData.asU16 : TransactionData → Option Nat
  | .u16 d => some d
  | _ => none

/-- `TransactionData::as_u8`. -/
def TransactionData.asU8 : TransactionData → Option Nat
  | .u8 d => some d
  | _ => none

inductive TransactionOutcome where
  | readDone (d : TransactionData)
  | writeDone
  | pending
deriving DecidableEq, Repr

/-- One byte of a bitvec `BitSlice` (`Lsb0` over bytes): bit `8*k + j`
has weight `2^j` inside byte `k`. -/
def sliceByte (bits : Nat → Bool) (k : Nat) : Nat :=
  ((List.range 8).map (fun j => if bits (8 * k + j) then 2 ^ j else 0)).sum

/-- `BitSlice::load_be` on the byte-aligned sub-slice starting at byte
`loByte` and spanning `nBytes` bytes: the first byte of the slice is the
most significant. -/
def loadBE (bits : Nat → Bool) (loByte nBytes : Nat) : Nat :=
  ((List.range nBytes).map
    (fun i => sliceByte bits (loByte + i) * 256 ^ (nBytes - 1 - i))).sum

/-- The 32-bit payload field of a DDATA shift buffer, i.e. the 4 data
bytes interpreted as a big-endian integer. -/
def beField (bytes : List Nat) : Nat :=
  bytes.foldl (fun a b => a * 256 + b) 0

/-- `AhbJtag::transform_ddata_result` from ahbjtag.rs.  `bits` is the
33-bit DDATA response; bit 32 is the DONE flag.  `none` models the
`panic!("Must write ADATA before reading DDATA")` arm. -/
def transform_ddata_result (st : AhbJtagState) (bits : Nat → Bool) :
    Option TransactionOutcome :=
  if bits 32 = false then
    some .pending
  else if st.currentTransactionKind = some .wr then
    some .writeDone
  else
    match st.currentTransactionSize with
    | some .u32 => some (.readDone (.u32 (loadBE bits 0 4)))
    | some .u16 => some (.readDone (.u16 (loadBE bits 2 2)))
    | some .u8 => some (.readDone (.u8 (loadBE bits 3 1)))
    | none => none

/-! ## The bridge machine: state plus emitted shift trace

The probe is an oracle `probe : Nat → Nat → Bool` giving the 33 response
bits of the k-th DDATA shift (counted globally), and each
`..._with_timeout` call receives an `elapsed : Nat → Nat` oracle giving
the value of `start_time.elapsed()` observed after its i-th poll.  A
`fuel` bound makes the polling loops total; exhausting it yields the
distinguished `fuelOut` outcome (the loop would still be running), kept
separate from `panic` (a Rust assertion/`panic!` fired). -/

inductive Shift where
  | adata (kind : TransactionKind) (size : TransactionSize) (addr : Nat)
  | ddata (seq : SeqFlag) (payloadBytes : List Nat)
deriving DecidableEq, Repr

structure Bridge where
  st : AhbJtagState
  trace : List Shift
  nd : Nat
deriving DecidableEq, Repr

def Bridge.new : Bridge := ⟨AhbJtagState.new, [], 0⟩

inductive Res (α : Type) where
  | ok (a : α) (b : Bridge)
  | err (e : Leon3Error) (b : Bridge)
  | panic
  | fuelOut
deriving DecidableEq, Repr

/-- `AhbJtag::write_adata`: emit the 35-bit ADATA shift and record the
open-transaction kind and size. -/
def write_adata (address : Nat) (kind : TransactionKind) (size : TransactionSize)
    (b : Bridge) : Bridge :=
  { st := ⟨some size, some kind⟩,
    trace := b.trace ++ [.adata kind size address],
    nd := b.nd }

/-- The polling loop of `AhbJtag::read_ddata_with_timeout`: shift DDATA,
interpret, retry while pending until `elapsed i > timeout`. -/
def read_ddata_loop (probe : Nat → Nat → Bool) (elapsed : Nat → Nat)
    (seq : SeqFlag) (timeout : Nat) : Nat → Nat → Bridge → Res TransactionData
  | 0, _, _ => .fuelOut
  | fuel + 1, i, b =>
    let bits := probe b.nd
    let b' : Bridge :=
      { b with trace := b.trace ++ [.ddata seq [0, 0, 0, 0]], nd := b.nd + 1 }
    match transform_ddata_result b.st bits with
    | none => .panic
    | some (.readDone data) =>
      if seq = .lastTransaction then
        .ok data { b' with st := ⟨none, none⟩ }
      else
        .ok data b'
    | some .pending =>
      if elapsed i > timeout then .err .timeout b'
      else read_ddata_loop probe elapsed seq timeout fuel (i + 1) b'
    | some .writeDone => .panic

/-- `AhbJtag::read_ddata_with_timeout` from ahbjtag.rs, including the
entry assertion that sequential (SEQ=1) shifts require an open `U32`
transaction. -/
def read_ddata_with_timeout (probe : Nat → Nat → Bool) (elapsed : Nat → Nat)
    (seq : SeqFlag) (timeout fuel : Nat) (b : Bridge) : Res TransactionData :=
  if seq = .continuingTransaction ∧ b.st.currentTransactionSize ≠ some .u32 then
    .panic
  else
    read_ddata_loop probe elapsed seq timeout fuel 0 b

/-- The polling loop of `AhbJtag::write_ddata_with_timeout`. -/
def write_ddata_loop (probe : Nat → Nat → Bool) (elapsed : Nat → Nat)
    (data : TransactionData) (seq : SeqFlag) (timeout : Nat) :
    Nat → Nat → Bridge → Res Unit
  | 0, _, _ => .fuelOut
  | fuel + 1, i, b =>
    let bits := probe b.nd
    let b' : Bridge :=
      { b with trace := b.trace ++ [.ddata seq data.encode], nd := b.nd + 1 }
    match transform_ddata_result b.st bits with
    | none => .panic
    | some .writeDone =>
      if seq = .lastTransaction then
        .ok () { b' with st := ⟨none, none⟩ }
      else
        .ok () b'
    | some .pending =>
      if elapsed i > timeout then .err .timeout b'
      else write_ddata_loop probe elapsed data seq timeout fuel (i + 1) b'
    | some (.readDone _) => .panic

/-- `AhbJtag::write_ddata_with_timeout` from ahbjtag.rs, including both
entry assertions (SEQ=1 requires an open `U32` transaction; the payload
width must match the open width). -/
def write_ddata_with_timeout (probe : Nat → Nat → Bool) (elapsed : Nat → Nat)
    (data : TransactionData) (seq : SeqFlag) (timeout fuel : Nat) (b : Bridge) :
    Res Unit :=
  if seq = .continuingTransaction ∧ b.st.currentTransactionSize ≠ some .u32 then
    .panic
  else if some data.size ≠ b.st.currentTransactionSize then
    .panic
  else
    write_ddata_loop probe elapsed data seq timeout fuel 0 b

/-- `check_out_of_bounds` from ahbjtag.rs: for a nonzero byte count the
count must fit in `u32` (`expect` panics otherwise, modelled as `none`)
and `address.checked_add(num_bytes - 1)` must not overflow `u32`. -/
def check_out_of_bounds (address numBytes : Nat) : Option (Except Leon3Error Unit) :=
  if numBytes > 0 then
    if numBytes ≤ 0xFFFFFFFF then
      if address + (numBytes - 1) ≤ 0xFFFFFFFF then some (.ok ())
      else some (.error .outOfBounds)
    else none
  else some (.ok ())

/-! ## Chunking (itertools `chunk_by`) and the public bridge operations -/

/-- Accumulator core of consecutive grouping: `acc` holds the current
run reversed, `currentKey` its key. -/
def chunkByKeyAux {α : Type} (key : α → Nat) (currentKey : Nat) (acc : List α) :
    List α → List (Nat × List α)
  | [] => [(currentKey, acc.reverse)]
  | x :: rest =>
    if key x = currentKey then
      chunkByKeyAux key currentKey (x :: acc) rest
    else
      (currentKey, acc.reverse) :: chunkByKeyAux key (key x) [x] rest

/-- `Itertools::chunk_by`: group a list into maximal contiguous runs of
elements sharing the same key, in order. -/
def chunkByKey {α : Type} (key : α → Nat) : List α → List (Nat × List α)
  | [] => []
  | x :: rest => chunkByKeyAux key (key x) [x] rest

/-- The 1 KiB-boundary key used by `read32_with_timeout` and
`write32_with_timeout`: word index `i` belongs to group
`(address + i*4) / 1024`. -/
def burstKey (address i : Nat) : Nat := (address + i * 4) / 1024

/-- The SEQ flags `with_position` assigns to a run: `ContinuingTransaction`
on `First`/`Middle`, `LastTransaction` on `Last`/`Only`. -/
def seqFlagsFor {α : Type} : List α → List SeqFlag
  | [] => []
  | [_] => [.lastTransaction]
  | _ :: x :: rest => .continuingTransaction :: seqFlagsFor (x :: rest)

/-- Per-run DDATA loop of `read32_with_timeout`: SEQ=1 on every index
except the run's last (`with_position`), `as_u32` on each result. -/
def read32_run (probe : Nat → Nat → Bool) (elapsedGen : Nat → Nat → Nat)
    (timeout fuel : Nat) : List Nat → Bridge → Res (List Nat)
  | [], b => .ok [] b
  | _ :: rest, b =>
    let seq : SeqFlag :=
      if rest.isEmpty then .lastTransaction else .continuingTransaction
    match read_ddata_with_timeout probe (elapsedGen b.nd) seq timeout fuel b with
    | .panic => .panic
    | .fuelOut => .fuelOut
    | .err e b' => .err e b'
    | .ok d b' =>
      match d.asU32 with
      | none => .panic
      | some w =>
        match read32_run probe elapsedGen timeout fuel rest b' with
        | .ok ws b'' => .ok (w :: ws) b''
        | .err e b'' => .err e b''
        | .panic => .panic
        | .fuelOut => .fuelOut

/-- Chunk loop of `read32_with_timeout`: one ADATA per chunk at
`max(address, chunk_idx * 1024)`, then the per-run DDATA loop. -/
def read32_chunks_run (probe : Nat → Nat → Bool) (elapsedGen : Nat → Nat → Nat)
    (timeout fuel address : Nat) :
    List (Nat × List Nat) → Bridge → Res (List Nat)
  | [], b => .ok [] b
  | (k, run) :: rest, b =>
    let b1 := write_adata (max address (k * 1024)) .rd .u32 b
    match read32_run probe elapsedGen timeout fuel run b1 with
    | .ok ws b2 =>
      match read32_chunks_run probe elapsedGen timeout fuel address rest b2 with
      | .ok ws' b3 => .ok (ws ++ ws') b3
      | .err e b3 => .err e b3
      | .panic => .panic
      | .fuelOut => .fuelOut
    | .err e b2 => .err e b2
    | .panic => .panic
    | .fuelOut => .fuelOut

/-- `AhbJtag::read32_with_timeout` from ahbjtag.rs for `n` words:
bounds check, then chunking by `burstKey`, one ADATA plus a
SEQ-terminated DDATA sequence per chunk. -/
def read32_with_timeout (probe : Nat → Nat → Bool) (elapsedGen : Nat → Nat → Nat)
    (address n timeout fuel : Nat) (b : Bridge) : Res (List Nat) :=
  match check_out_of_bounds address (n * 4) with
  | none => .panic
  | some (.error e) => .err e b
  | some (.ok _) =>
    read32_chunks_run probe elapsedGen timeout fuel address
      (chunkByKey (burstKey address) (List.range n)) b

/-- Per-run DDATA loop of `write32_with_timeout` over `(index, word)`
pairs. -/
def write32_run (probe : Nat → Nat → Bool) (elapsedGen : Nat → Nat → Nat)
    (timeout fuel : Nat) : List (Nat × Nat) → Bridge → Res Unit
  | [], b => .ok () b
  | (_, w) :: rest, b =>
    let seq : SeqFlag :=
      if rest.isEmpty then .lastTransaction else .continuingTransaction
    match write_ddata_with_timeout probe (elapsedGen b.nd) (.u32 w) seq timeout fuel b with
    | .panic => .panic
    | .fuelOut => .fuelOut
    | .err e b' => .err e b'
    | .ok _ b' => write32_run probe elapsedGen timeout fuel rest b'

/-- Chunk loop of `write32_with_timeout`. -/
def write32_chunks_run (probe : Nat → Nat → Bool) (elapsedGen : Nat → Nat → Nat)
    (timeout fuel address : Nat) :
    List (Nat × List (Nat × Nat)) → Bridge → Res Unit
  | [], b => .ok () b
  | (k, run) :: rest, b =>
    let b1 := write_adata (max address (k * 1024)) .wr .u32 b
    match write32_run probe elapsedGen timeout fuel run b1 with
    | .ok _ b2 => write32_chunks_run probe elapsedGen timeout fuel address rest b2
    | .err e b2 => .err e b2
    | .panic => .panic
    | .fuelOut => .fuelOut

/-- `AhbJtag::write32_with_timeout` from ahbjtag.rs: bounds check, then
`data.iter().enumerate()` chunked by `burstKey` on the word index. -/
def write32_with_timeout (probe : Nat → Nat → Bool) (elapsedGen : Nat → Nat → Nat)
    (address : Nat) (data : List Nat) (timeout fuel : Nat) (b : Bridge) : Res Unit :=
  match check_out_of_bounds address (data.length * 4) with
  | none => .panic
  | some (.error e) => .err e b
  | some (.ok _) =>
    write32_chunks_run probe elapsedGen timeout fuel address
      (chunkByKey (fun p => burstKey address p.1) data.enum) b

/-- `AhbJtag::read16_with_timeout`: one ADATA, one DDATA with SEQ=0. -/
def read16_with_timeout (probe : Nat → Nat → Bool) (elapsedGen : Nat → Nat → Nat)
    (address timeout fuel : Nat) (b : Bridge) : Res Nat :=
  let b1 := write_adata address .rd .u16 b
  match read_ddata_with_timeout probe (elapsedGen b1.nd) .lastTransaction timeout fuel b1 with
  | .ok d b2 =>
    match d.asU16 with
    | some v => .ok v b2
    | none => .panic
  | .err e b2 => .err e b2
  | .panic => .panic
  | .fuelOut => .fuelOut

/-- `AhbJtag::read8_with_timeout`: one ADATA, one DDATA with SEQ=0. -/
def read8_with_timeout (probe : Nat → Nat → Bool) (elapsedGen : Nat → Nat → Nat)
    (address timeout fuel : Nat) (b : Bridge) : Res Nat :=
  let b1 := write_adata address .rd .u8 b
  match read_ddata_with_timeout probe (elapsedGen b1.nd) .lastTransaction timeout fuel b1 with
  | .ok d b2 =>
    match d.asU8 with
    | some v => .ok v b2
    | none => .panic
  | .err e b2 => .err e b2
  | .panic => .panic
  | .fuelOut => .fuelOut

/-- `AhbJtag::write16_with_timeout`: one ADATA, one DDATA with SEQ=0. -/
def write16_with_timeout (probe : Nat → Nat → Bool) (elapsedGen : Nat → Nat → Nat)
    (address data timeout fuel : Nat) (b : Bridge) : Res Unit :=
  let b1 := write_adata address .wr .u16 b
  write_ddata_with_timeout probe (elapsedGen b1.nd) (.u16 data) .lastTransaction timeout fuel b1

/-- `AhbJtag::write8_with_timeout`: one ADATA, one DDATA with SEQ=0. -/
def write8_with_timeout (probe : Nat → Nat → Bool) (elapsedGen : Nat → Nat → Nat)
    (address data timeout fuel : Nat) (b : Bridge) : Res Unit :=
  let b1 := write_adata address .wr .u8 b
  write_ddata_with_timeout probe (elapsedGen b1.nd) (.u8 data) .lastTransaction timeout fuel b1

/-- Loop body of `MemoryInterface::read_16` for `AhbJtag` after its
bounds check: independent single-shot transactions at successive
addresses. -/
def read16_array_loop (probe : Nat → Nat → Bool) (elapsedGen : Nat → Nat → Nat)
    (address timeout fuel : Nat) : Nat → Bridge → Res (List Nat)
  | 0, b => .ok [] b
  | n + 1, b =>
    match read16_with_timeout probe elapsedGen address timeout fuel b with
    | .ok v b' =>
      match read16_array_loop probe elapsedGen (address + 2) timeout fuel n b' with
      | .ok vs b'' => .ok (v :: vs) b''
      | .err e b'' => .err e b''
      | .panic => .panic
      | .fuelOut => .fuelOut
    | .err e b' => .err e b'
    | .panic => .panic
    | .fuelOut => .fuelOut

/-- `MemoryInterface::read_16` for `AhbJtag` (ahbjtag.rs), with the
address already validated as 32-bit and 2-aligned: the
`check_out_of_bounds(address, data.len() * 2)` call precedes any probe
traffic. -/
def read16_array (probe : Nat → Nat → Bool) (elapsedGen : Nat → Nat → Nat)
    (address n timeout fuel : Nat) (b : Bridge) : Res (List Nat) :=
  match check_out_of_bounds address (n * 2) with
  | none => .panic
  | some (.error e) => .err e b
  | some (.ok _) => read16_array_loop probe elapsedGen address timeout fuel n b

/-- Loop body of `MemoryInterface::read_8` for `AhbJtag` after its
bounds check. -/
def read8_array_loop (probe : Nat → Nat → Bool) (elapsedGen : Nat → Nat → Nat)
    (address timeout fuel : Nat) : Nat → Bridge → Res (List Nat)
  | 0, b => .ok [] b
  | n + 1, b =>
    match read8_with_timeout probe elapsedGen address timeout fuel b with
    | .ok v b' =>
      match read8_array_loop probe elapsedGen (address + 1) timeout fuel n b' with
      | .ok vs b'' => .ok (v :: vs) b''
      | .err e b'' => .err e b''
      | .panic => .panic
      | .fuelOut => .fuelOut
    | .err e b' => .err e b'
    | .panic => .panic
    | .fuelOut => .fuelOut

/-- `MemoryInterface::read_8` for `AhbJtag` (ahbjtag.rs), with the
address already validated as 32-bit: `check_out_of_bounds(address,
data.len())` precedes any probe traffic. -/
def read8_array (probe : Nat → Nat → Bool) (elapsedGen : Nat → Nat → Nat)
    (address n timeout fuel : Nat) (b : Bridge) : Res (List Nat) :=
  match check_out_of_bounds address (n * 1) with
  | none => .panic
  | some (.error e) => .err e b
  | some (.ok _) => read8_array_loop probe elapsedGen address timeout fuel n b

/-! ## Theorems: register-id codec (claim C9) -/

set_option maxHeartbeats 2000000 in
lemma tryFromU16_error_of_not_valid (v : Nat) (h : ¬ validRegisterIdU16 v) :
    Leon3RegisterId.tryFromU16 v = .error (.invalidRegisterId v) := by
  simp only [validRegisterIdU16] at h
  by_cases h0 : v / 4096 = 0
  · simp only [Leon3RegisterId.tryFromU16, h0, if_true, if_pos]
    split_ifs <;> first | rfl | omega | exact False.elim (by assumption)
  · by_cases h1 : v / 4096 = 1
    · simp only [Leon3RegisterId.tryFromU16, h0, h1, if_false, if_true, if_pos, if_neg,
        not_false_iff]
      split_ifs <;> first | rfl | omega | exact False.elim (by assumption)
    · by_cases h2 : v / 4096 = 2
      · exact absurd (Or.inr (Or.inr h2)) h
      · simp only [Leon3RegisterId.tryFromU16, h0, h1, h2, if_false, if_neg, not_false_iff]

set_option maxHeartbeats 2000000 in
lemma tryFromU16_isOk_of_valid (v : Nat) (h : validRegisterIdU16 v) :
    (Leon3RegisterId.tryFromU16 v).isOk := by
  simp only [validRegisterIdU16] at h
  by_cases h0 : v / 4096 = 0
  · simp only [Leon3RegisterId.tryFromU16, h0, if_true, if_pos]
    split_ifs <;> first | rfl | omega | exact False.elim (by assumption)
  · by_cases h1 : v / 4096 = 1
    · simp only [Leon3RegisterId.tryFromU16, h0, h1, if_false, if_true, if_pos, if_neg,
        not_false_iff]
      split_ifs <;> first | rfl | omega | exact False.elim (by assumption)
    · by_cases h2 : v / 4096 = 2
      · simp only [Leon3RegisterId.tryFromU16, h0, h1, h2, if_false, if_true, if_pos, if_neg,
          not_false_iff]
        rfl
      · omega

lemma tryFromU16_isOk_iff (v : Nat) :
    (Leon3RegisterId.tryFromU16 v).isOk ↔ validRegisterIdU16 v := by
  constructor
  · intro hok
    by_contra hv
    rw [tryFromU16_error_of_not_valid v hv] at hok
    exact Bool.noConfusion hok
  · exact tryFromU16_isOk_of_valid v

set_option maxHeartbeats 4000000 in
lemma tryFromU16_to_u16_roundtrip (r : Leon3RegisterId) (h : r.valid) :
    Leon3RegisterId.tryFromU16 r.to_u16 = .ok r := by
  cases r with
  | iuCore c =>
    cases c <;> simp only [Leon3RegisterId.valid] at h <;>
      (rename_i n; interval_cases n <;> rfl)
  | iuSpecial s =>
    cases s <;> simp only [Leon3RegisterId.valid] at h
    case asr n =>
      obtain ⟨h1, h2⟩ := h
      interval_cases n <;> rfl
    all_goals rfl
  | fpu f =>
    cases f with
    | f n =>
      simp only [Leon3RegisterId.valid] at h
      interval_cases n <;> rfl

set_option maxHeartbeats 2000000 in
lemma tryFromU16_asr_mapping (n : Nat) (h1 : 32 ≤ n) (h2 : n < 48) :
    Leon3RegisterId.tryFromU16 (4096 + n) = .ok (.iuSpecial (.asr (n - 16))) := by
  interval_cases n <;> rfl

/-- C9: decoding a 16-bit `RegisterId` into a `Leon3RegisterId` enforces
the documented ranges — class 0 needs bank 0..3 and index 0..7, class 1
needs selector 0..7 or 32..47 (selectors 32..47 mapping to ASR16..ASR31),
class 2 carries an F index — every id outside these ranges yields
`InvalidRegisterId`, and encoding a valid `Leon3RegisterId` with `to_u16`
and decoding it again yields the same register. -/
theorem c9_register_id_codec :
    (∀ v : Nat, ((Leon3RegisterId.tryFromU16 v).isOk ↔ validRegisterIdU16 v) ∧
      (¬ validRegisterIdU16 v →
        Leon3RegisterId.tryFromU16 v = .error (.invalidRegisterId v))) ∧
    (∀ n : Nat, 32 ≤ n → n < 48 →
      Leon3RegisterId.tryFromU16 (4096 + n) = .ok (.iuSpecial (.asr (n - 16)))) ∧
    (∀ r : Leon3RegisterId, r.valid →
      Leon3RegisterId.tryFromU16 r.to_u16 = .ok r) :=
  ⟨fun v => ⟨tryFromU16_isOk_iff v, tryFromU16_error_of_not_valid v⟩,
   tryFromU16_asr_mapping, tryFromU16_to_u16_roundtrip⟩

/-- Witness for C9 at concrete inputs: ASR16 round-trips through id
0x1020, the out-of-range id 0x0008 (class 0, index 8) decodes to
`InvalidRegisterId`, and selector 33 decodes to ASR17. -/
theorem c9_register_id_codec_witness :
    Leon3RegisterId.tryFromU16
        (Leon3RegisterId.to_u16 (.iuSpecial (.asr 16))) = .ok (.iuSpecial (.asr 16)) ∧
    Leon3RegisterId.tryFromU16 8 = .error (.invalidRegisterId 8) ∧
    Leon3RegisterId.tryFromU16 (4096 + 33) = .ok (.iuSpecial (.asr 17)) :=
  ⟨c9_register_id_codec.2.2 _ ⟨by norm_num, by norm_num⟩,
   (c9_register_id_codec.1 8).2 (by decide),
   c9_register_id_codec.2.1 33 (by norm_num) (by norm_num)⟩

/-! ## Theorems: DSU3 first-attach initialisation (claim C3) -/

/-- C3: on the very first DSU3 access after construction (flag false) the
driver performs exactly one read-modify-write of DSU_CTRL whose written
value has the BW bit (bit 2) set, preserving every other bit, and then
sets the `initialized` flag; on any later access the flag is checked and
no initialisation traffic is issued. -/
theorem c3_first_attach_initialisation :
    (∀ base : Nat, (Dsu3State.new base).initialized = false) ∧
    (∀ base ctrlVal : Nat,
      Dsu3.try_attach (Dsu3State.new base) ctrlVal =
        ({ baseAddr := base, initialized := true },
         [DsuEvent.readCtrl, DsuEvent.writeCtrl (ctrlVal ||| 4)]) ∧
      (ctrlVal ||| 4).testBit 2 = true ∧
      (∀ i : Nat, i ≠ 2 → (ctrlVal ||| 4).testBit i = ctrlVal.testBit i)) ∧
    (∀ st : Dsu3State, ∀ ctrlVal : Nat, st.initialized = true →
      Dsu3.try_attach st ctrlVal = (st, [])) := by
  refine ⟨fun _ => rfl, fun base ctrlVal => ⟨rfl, ?_, ?_⟩, ?_⟩
  · rw [Nat.testBit_or]
    have h42 : Nat.testBit 4 2 = true := by decide
    rw [h42, Bool.or_true]
  · intro i hi
    simp only [Nat.testBit_or]
    have h4 : (4 : Nat).testBit i = false := by
      rcases Nat.lt_or_ge i 3 with h | h
      · interval_cases i <;> first | rfl | exact absurd rfl hi
      · have : (4 : Nat) < 2 ^ i := by
          calc (4 : Nat) < 8 := by norm_num
          _ = 2 ^ 3 := by norm_num
          _ ≤ 2 ^ i := Nat.pow_le_pow_right (by norm_num) h
        exact Nat.testBit_lt_two_pow this
    rw [h4, Bool.or_false]
  · intro st ctrlVal h
    unfold Dsu3.try_attach
    rw [h]
    simp

/-- Witness for C3: a second attach on an already-initialised state
issues no traffic. -/
theorem c3_first_attach_initialisation_witness :
    Dsu3.try_attach { baseAddr := 0, initialized := true } 7 =
      ({ baseAddr := 0, initialized := true }, []) :=
  c3_first_attach_initialisation.2.2 _ 7 rfl

/-! ## Theorems: discarded first-attach result in `Leon3::new` (claim C10) -/

/-- C10: `Leon3::new` discards the `Result` of `on_first_attach` and sets
the `initialized` flag regardless, so an error during the initialisation
write is never reported (`new` still returns Ok) and, the flag being set,
the write is never retried on later accesses. -/
theorem c10_first_attach_result_discarded :
    (∀ r : Except Leon3Error Unit,
      Leon3.new Leon3CoreState.new r = (.ok (), { initialized := true }, true)) ∧
    (∀ r : Except Leon3Error Unit,
      Leon3.new { initialized := true } r = (.ok (), { initialized := true }, false)) ∧
    Leon3.new Leon3CoreState.new (.error .timeout) = (.ok (), { initialized := true }, true) :=
  ⟨fun _ => rfl, fun _ => rfl, rfl⟩

/-! ## Theorems: DDATA payload justification (claim C8) -/

lemma sliceByte_le (bits : Nat → Bool) (k : Nat) : sliceByte bits k ≤ 255 := by
  unfold sliceByte
  have h : ((List.range 8).map (fun j => if bits (8 * k + j) then 2 ^ j else 0)).sum ≤
      ((List.range 8).map (fun j => 2 ^ j)).sum := by
    apply List.sum_le_sum
    intro i _
    split <;> simp
  simpa using h

lemma loadBE_zero_four (bits : Nat → Bool) :
    loadBE bits 0 4 =
      sliceByte bits 0 * 16777216 + sliceByte bits 1 * 65536 +
        sliceByte bits 2 * 256 + sliceByte bits 3 := by
  simp [loadBE, List.range_succ]
  ring

lemma loadBE_two_two (bits : Nat → Bool) :
    loadBE bits 2 2 = sliceByte bits 2 * 256 + sliceByte bits 3 := by
  simp [loadBE, List.range_succ]

lemma loadBE_three_one (bits : Nat → Bool) :
    loadBE bits 3 1 = sliceByte bits 3 := by
  simp [loadBE, List.range_succ]

lemma loadBE_byte_is_low_bits (bits : Nat → Bool) :
    loadBE bits 3 1 = loadBE bits 0 4 % 256 := by
  rw [loadBE_three_one, loadBE_zero_four]
  have h3 := sliceByte_le bits 3
  omega

lemma loadBE_half_is_low_bits (bits : Nat → Bool) :
    loadBE bits 2 2 = loadBE bits 0 4 % 65536 := by
  rw [loadBE_two_two, loadBE_zero_four]
  have h2 := sliceByte_le bits 2
  have h3 := sliceByte_le bits 3
  omega

/-- C8: on a completed read the 32 data bits of the DDATA response are
right-justified per width — the byte decode (`bits[24..32].load_be()`)
equals the low 8 bits of the full big-endian field
(`bits[0..32].load_be()`), the halfword decode (`bits[16..32].load_be()`)
its low 16 bits, and the word decode the full field; symmetrically the
write payload is justified per width so that `write16(0x1234)` carries a
DDATA payload whose 32-bit field viewed big-endian is `0x12340000`, the
halfword occupying value bits 16..31 of that field. -/
theorem c8_ddata_payload_justification :
    (∀ bits : Nat → Bool, bits 32 = true →
      transform_ddata_result ⟨some .u8, some .rd⟩ bits =
        some (.readDone (.u8 (loadBE bits 0 4 % 256))) ∧
      transform_ddata_result ⟨some .u16, some .rd⟩ bits =
        some (.readDone (.u16 (loadBE bits 0 4 % 65536))) ∧
      transform_ddata_result ⟨some .u32, some .rd⟩ bits =
        some (.readDone (.u32 (loadBE bits 0 4)))) ∧
    (∀ d : Nat,
      beField ((TransactionData.u16 d).encode) = d % 65536 * 65536 ∧
      beField ((TransactionData.u8 d).encode) = d % 256 * 16777216 ∧
      beField ((TransactionData.u32 d).encode) = d % 4294967296) ∧
    (beField ((TransactionData.u16 0x1234).encode) = 0x12340000 ∧
      0x12340000 / 65536 % 65536 = 0x1234 ∧ 0x12340000 % 65536 = 0) := by
  refine ⟨?_, ?_, by simp [beField, TransactionData.encode], by norm_num, by norm_num⟩
  · intro bits h32
    refine ⟨?_, ?_, ?_⟩ <;>
      simp [transform_ddata_result, h32, loadBE_byte_is_low_bits,
        loadBE_half_is_low_bits]
  · intro d
    refine ⟨?_, ?_, ?_⟩ <;>
      (simp [beField, TransactionData.encode]; omega)

/-- Witness for C8: with an all-ones response the byte decode yields the
low 8 bits (255) of the all-ones 32-bit field. -/
theorem c8_ddata_payload_justification_witness :
    transform_ddata_result ⟨some .u8, some .rd⟩ (fun _ => true) =
      some (.readDone (.u8 (loadBE (fun _ => true) 0 4 % 256))) :=
  (c8_ddata_payload_justification.1 (fun _ => true) rfl).1

/-! ## 64-bit accesses and host endianness (claim C6)

`read_64`/`write_64` reinterpret the `u64` slice as `u32` words
(`align_to`), whose order depends on the host endianness, and on a
little-endian host additionally swap each pair of 32-bit words
(`chunks_exact_mut(2)` / the copy loop in `write_64`). -/

inductive Endian where
  | little
  | big
deriving DecidableEq, Repr

def u64Hi (v : Nat) : Nat := v / 4294967296 % 4294967296

def u64Lo (v : Nat) : Nat := v % 4294967296

/-- The `align_to::<u32>` view of one `u64` on the given host: on a
big-endian host the first (lower-address) `u32` holds the high half, on a
little-endian host the low half. -/
def u64ToHostWords (e : Endian) (v : Nat) : List Nat :=
  match e with
  | .big => [u64Hi v, u64Lo v]
  | .little => [u64Lo v, u64Hi v]

/-- Swap each adjacent pair of words (the per-pair `swap(0, 1)` /
reversed copy in read_64/write_64's little-endian branches). -/
def swapPairs : List Nat → List Nat
  | a :: b :: rest => b :: a :: swapPairs rest
  | l => l

def chunkPairs : List Nat → List (Nat × Nat)
  | a :: b :: rest => (a, b) :: chunkPairs rest
  | _ => []

/-- Reassembling one `u64` from its two `u32` memory words on the host:
the first word is the high half on a big-endian host and the low half on
a little-endian host. -/
def hostWordsToU64 (e : Endian) (w0 w1 : Nat) : Nat :=
  match e with
  | .big => w0 * 4294967296 + w1
  | .little => w1 * 4294967296 + w0

/-- `AhbJtag::write_64` reduced to the 32-bit word sequence it hands to
`write32_with_timeout`: `align_to` the input, and on a little-endian host
swap each pair. -/
def write_64_words (e : Endian) (data : List Nat) : List Nat :=
  match e with
  | .big => data.flatMap (u64ToHostWords .big)
  | .little => swapPairs (data.flatMap (u64ToHostWords .little))

/-- `AhbJtag::read_64` reduced to a pure function of the 32-bit words
`read32_with_timeout` returns: on a little-endian host swap each pair in
place, then reinterpret the buffer as `u64`s per host endianness. -/
def read_64_values (e : Endian) (targetWords : List Nat) : List Nat :=
  let data32 :=
    match e with
    | .big => targetWords
    | .little => swapPairs targetWords
  (chunkPairs data32).map (fun p => hostWordsToU64 e p.1 p.2)

lemma swapPairs_flatMap_little (data : List Nat) :
    swapPairs (data.flatMap (u64ToHostWords .little)) =
      data.flatMap (fun v => [u64Hi v, u64Lo v]) := by
  induction data with
  | nil => rfl
  | cons v rest ih =>
    simp only [List.flatMap_cons, u64ToHostWords, List.cons_append, List.nil_append]
    rw [show swapPairs (u64Lo v :: u64Hi v :: (rest.flatMap (u64ToHostWords .little))) =
      u64Hi v :: u64Lo v :: swapPairs (rest.flatMap (u64ToHostWords .little)) from rfl, ih]

lemma write_64_words_canonical (e : Endian) (data : List Nat) :
    write_64_words e data = data.flatMap (fun v => [u64Hi v, u64Lo v]) := by
  cases e with
  | big => rfl
  | little => exact swapPairs_flatMap_little data

lemma read_64_values_roundtrip (e : Endian) (data : List Nat)
    (h : ∀ v ∈ data, v < 18446744073709551616) :
    read_64_values e (write_64_words e data) = data := by
  rw [write_64_words_canonical]
  induction data with
  | nil => cases e <;> rfl
  | cons v rest ih =>
    have hv := h v (List.mem_cons_self v rest)
    have hrest : ∀ w ∈ rest, w < 18446744073709551616 :=
      fun w hw => h w (List.mem_cons_of_mem v hw)
    have ihr := ih hrest
    cases e with
    | big =>
      simp only [read_64_values, List.flatMap_cons, List.cons_append, List.nil_append,
        chunkPairs, List.map_cons] at ihr ⊢
      refine congrArg₂ _ ?_ ihr
      simp only [hostWordsToU64, u64Hi, u64Lo]
      omega
    | little =>
      simp only [read_64_values, List.flatMap_cons, List.cons_append, List.nil_append] at ihr ⊢
      rw [show swapPairs (u64Hi v :: u64Lo v :: (rest.flatMap fun w => [u64Hi w, u64Lo w])) =
        u64Lo v :: u64Hi v :: swapPairs (rest.flatMap fun w => [u64Hi w, u64Lo w]) from rfl]
      simp only [chunkPairs, List.map_cons] at ihr ⊢
      refine congrArg₂ _ ?_ ihr
      simp only [hostWordsToU64, u64Hi, u64Lo]
      omega

/-- C6: `write_64`/`read_64` treat a 64-bit value as two consecutive
32-bit words with the high half at the lower target address.  On either
host endianness the word sequence sent to the target is
`[high, low]` per value (the little-endian path swapping each pair, the
big-endian path using the raw layout), the word written at the value's
base address is its high half — so on the big-endian target the byte at
that address is the high byte `v / 2^56` — and reading back recovers the
original values on either host. -/
theorem c6_64bit_endianness :
    (∀ e : Endian, ∀ data : List Nat,
      write_64_words e data = data.flatMap (fun v => [u64Hi v, u64Lo v])) ∧
    (∀ e : Endian, ∀ v : Nat, ∀ rest : List Nat,
      (write_64_words e (v :: rest)).head? = some (u64Hi v)) ∧
    (∀ v : Nat, v < 18446744073709551616 →
      u64Hi v / 16777216 % 256 = v / 72057594037927936) ∧
    (∀ e : Endian, ∀ data : List Nat, (∀ v ∈ data, v < 18446744073709551616) →
      read_64_values e (write_64_words e data) = data) := by
  refine ⟨write_64_words_canonical, ?_, ?_, read_64_values_roundtrip⟩
  · intro e v rest
    rw [write_64_words_canonical]
    rfl
  · intro v hv
    unfold u64Hi
    omega

/-- Witness for C6 at a concrete value on a little-endian host: the word
stream is `[high, low]`, the byte at the base address is the value's high
byte, and the value reads back. -/
theorem c6_64bit_endianness_witness :
    write_64_words .little [81985529216486895] =
      [81985529216486895].flatMap (fun v => [u64Hi v, u64Lo v]) ∧
    u64Hi 81985529216486895 / 16777216 % 256 = 81985529216486895 / 72057594037927936 ∧
    read_64_values .little (write_64_words .little [81985529216486895]) =
      [81985529216486895] :=
  ⟨c6_64bit_endianness.1 .little _,
   c6_64bit_endianness.2.2.1 _ (by norm_num),
   c6_64bit_endianness.2.2.2 .little _ (by
     intro v hv
     rw [List.mem_singleton] at hv
     rw [hv]
     norm_num)⟩

/-! ## Theorems: bounds checking (claim C7) -/

lemma check_out_of_bounds_overflow (address numBytes : Nat) (h1 : 1 ≤ numBytes)
    (h2 : numBytes ≤ 4294967295) (h3 : 4294967295 < address + numBytes - 1) :
    check_out_of_bounds address numBytes = some (.error .outOfBounds) := by
  unfold check_out_of_bounds
  split_ifs <;> first | rfl | omega

lemma check_out_of_bounds_ok (address numBytes : Nat)
    (h2 : numBytes ≤ 4294967295) (h3 : address + numBytes - 1 ≤ 4294967295) :
    check_out_of_bounds address numBytes = some (.ok ()) := by
  unfold check_out_of_bounds
  split_ifs <;> first | rfl | omega

/-- C7 (amended): for word, halfword and byte array operations with a
byte count that fits in `u32`, an access whose last byte address
`addr + N*width - 1` overflows the 32-bit address space fails with
`OutOfBounds` before any ADATA or DDATA shift is issued — the returned
bridge is exactly the input bridge, trace included — and when it does not
overflow the bounds check passes.  (The original claim, without the
byte-count bound, fails: see the counterexample.) -/
theorem c7_bounds_checked_before_traffic (probe : Nat → Nat → Bool)
    (elapsedGen : Nat → Nat → Nat) (timeout fuel : Nat) (b : Bridge) :
    (∀ address n : Nat, 1 ≤ n → n * 4 ≤ 4294967295 →
      4294967295 < address + n * 4 - 1 →
      read32_with_timeout probe elapsedGen address n timeout fuel b =
        .err .outOfBounds b) ∧
    (∀ address : Nat, ∀ data : List Nat, 1 ≤ data.length →
      data.length * 4 ≤ 4294967295 → 4294967295 < address + data.length * 4 - 1 →
      write32_with_timeout probe elapsedGen address data timeout fuel b =
        .err .outOfBounds b) ∧
    (∀ address n : Nat, 1 ≤ n → n * 2 ≤ 4294967295 →
      4294967295 < address + n * 2 - 1 →
      read16_array probe elapsedGen address n timeout fuel b =
        .err .outOfBounds b) ∧
    (∀ address n : Nat, 1 ≤ n → n * 1 ≤ 4294967295 →
      4294967295 < address + n * 1 - 1 →
      read8_array probe elapsedGen address n timeout fuel b =
        .err .outOfBounds b) ∧
    (∀ address numBytes : Nat, numBytes ≤ 4294967295 →
      address + numBytes - 1 ≤ 4294967295 →
      check_out_of_bounds address numBytes = some (.ok ())) := by
  refine ⟨?_, ?_, ?_, ?_, check_out_of_bounds_ok⟩
  · intro address n h1 h2 h3
    unfold read32_with_timeout
    rw [check_out_of_bounds_overflow address (n * 4) (by omega) h2 h3]
  · intro address data h1 h2 h3
    unfold write32_with_timeout
    rw [check_out_of_bounds_overflow address (data.length * 4) (by omega) h2 h3]
  · intro address n h1 h2 h3
    unfold read16_array
    rw [check_out_of_bounds_overflow address (n * 2) (by omega) h2 h3]
  · intro address n h1 h2 h3
    unfold read8_array
    rw [check_out_of_bounds_overflow address (n * 1) (by omega) h2 h3]

/-- Witness for C7: a 2-word read at `0xFFFF_FFFC` would end past the
address space and fails with `OutOfBounds` leaving the fresh bridge
untouched, while the bounds check passes for a word at `0xFFFF_FFFC`. -/
theorem c7_bounds_checked_before_traffic_witness :
    read32_with_timeout (fun _ _ => true) (fun _ _ => 0) 4294967292 2 0 1 Bridge.new =
      .err .outOfBounds Bridge.new ∧
    check_out_of_bounds 4294967292 4 = some (.ok ()) :=
  ⟨(c7_bounds_checked_before_traffic (fun _ _ => true) (fun _ _ => 0) 0 1 Bridge.new).1
      4294967292 2 (by norm_num) (by norm_num) (by norm_num),
   (c7_bounds_checked_before_traffic (fun _ _ => true) (fun _ _ => 0) 0 1 Bridge.new).2.2.2.2
      4294967292 4 (by norm_num) (by norm_num)⟩

/-- Counterexample to C7 as stated: for a byte-array access of
`N = 2^32` bytes at address 0 the last byte address `0 + 2^32·1 − 1 =
0xFFFF_FFFF` does not overflow the 32-bit address space, so the claim
says the bounds check passes; but `check_out_of_bounds` panics on the
`u32::try_from(num_bytes)` `expect` (the byte count does not fit in
`u32`), and `read_8` panics instead of proceeding. -/
theorem c7_counterexample_length_panic :
    check_out_of_bounds 0 4294967296 = none ∧
    read8_array (fun _ _ => true) (fun _ _ => 0) 0 4294967296 0 1 Bridge.new = .panic ∧
    0 + 4294967296 * 1 - 1 ≤ 4294967295 := by
  refine ⟨?_, ?_, by norm_num⟩
  · unfold check_out_of_bounds
    norm_num
  · unfold read8_array check_out_of_bounds
    norm_num

/-! ## Theorems: polling timeout leaves state intact (claim C2) -/

lemma read_ddata_loop_all_pending (probe : Nat → Nat → Bool) (elapsed : Nat → Nat)
    (seq : SeqFlag) (timeout : Nat) (hp : ∀ k, probe k 32 = false) :
    ∀ fuel i b, (∃ j, i ≤ j ∧ j < i + fuel ∧ timeout < elapsed j) →
    ∃ m, 1 ≤ m ∧
      read_ddata_loop probe elapsed seq timeout fuel i b =
        .err .timeout { b with
          trace := b.trace ++ List.replicate m (.ddata seq [0, 0, 0, 0]),
          nd := b.nd + m } := by
  intro fuel
  induction fuel with
  | zero => intro i b ⟨j, hj1, hj2, _⟩; omega
  | succ fuel ih =>
    intro i b ⟨j, hj1, hj2, hj3⟩
    rw [read_ddata_loop]
    simp only [transform_ddata_result, hp b.nd, Bool.false_eq_true, if_true, if_pos]
    by_cases he : timeout < elapsed i
    · refine ⟨1, le_refl 1, ?_⟩
      rw [if_pos he]
      rfl
    · rw [if_neg he]
      have hji : j ≠ i := fun hji => he (hji ▸ hj3)
      obtain ⟨m, hm1, hm2⟩ := ih (i + 1)
        { b with trace := b.trace ++ [.ddata seq [0, 0, 0, 0]], nd := b.nd + 1 }
        ⟨j, by omega, by omega, hj3⟩
      refine ⟨m + 1, by omega, ?_⟩
      rw [hm2]
      simp [List.append_assoc, List.replicate_succ]
      omega

lemma write_ddata_loop_all_pending (probe : Nat → Nat → Bool) (elapsed : Nat → Nat)
    (data : TransactionData) (seq : SeqFlag) (timeout : Nat)
    (hp : ∀ k, probe k 32 = false) :
    ∀ fuel i b, (∃ j, i ≤ j ∧ j < i + fuel ∧ timeout < elapsed j) →
    ∃ m, 1 ≤ m ∧
      write_ddata_loop probe elapsed data seq timeout fuel i b =
        .err .timeout { b with
          trace := b.trace ++ List.replicate m (.ddata seq data.encode),
          nd := b.nd + m } := by
  intro fuel
  induction fuel with
  | zero => intro i b ⟨j, hj1, hj2, _⟩; omega
  | succ fuel ih =>
    intro i b ⟨j, hj1, hj2, hj3⟩
    rw [write_ddata_loop]
    simp only [transform_ddata_result, hp b.nd, Bool.false_eq_true, if_true, if_pos]
    by_cases he : timeout < elapsed i
    · refine ⟨1, le_refl 1, ?_⟩
      rw [if_pos he]
      rfl
    · rw [if_neg he]
      have hji : j ≠ i := fun hji => he (hji ▸ hj3)
      obtain ⟨m, hm1, hm2⟩ := ih (i + 1)
        { b with trace := b.trace ++ [.ddata seq data.encode], nd := b.nd + 1 }
        ⟨j, by omega, by omega, hj3⟩
      refine ⟨m + 1, by omega, ?_⟩
      rw [hm2]
      simp [List.append_assoc, List.replicate_succ]
      omega

/-- C2: if every DDATA poll response has DONE = 0 and the elapsed time
observed at some poll strictly exceeds the per-transaction timeout, then
`read_ddata_with_timeout` and `write_ddata_with_timeout` return
`Timeout`, append only DDATA poll shifts to the trace (no automatic
retry, no new ADATA), and leave `current_transaction_size` and
`current_transaction_kind` exactly as they were, so a later operation may
retry. -/
theorem c2_timeout_preserves_state (probe : Nat → Nat → Bool) (elapsed : Nat → Nat)
    (timeout fuel : Nat) (b : Bridge) (seq : SeqFlag) (data : TransactionData)
    (hp : ∀ k, probe k 32 = false)
    (hj : ∃ j, j < fuel ∧ timeout < elapsed j) :
    ((seq = .continuingTransaction → b.st.currentTransactionSize = some .u32) →
      ∃ m, 1 ≤ m ∧
        read_ddata_with_timeout probe elapsed seq timeout fuel b =
          .err .timeout { b with
            trace := b.trace ++ List.replicate m (.ddata seq [0, 0, 0, 0]),
            nd := b.nd + m }) ∧
    ((seq = .continuingTransaction → b.st.currentTransactionSize = some .u32) →
      some data.size = b.st.currentTransactionSize →
      ∃ m, 1 ≤ m ∧
        write_ddata_with_timeout probe elapsed data seq timeout fuel b =
          .err .timeout { b with
            trace := b.trace ++ List.replicate m (.ddata seq data.encode),
            nd := b.nd + m }) := by
  obtain ⟨j, hj1, hj2⟩ := hj
  constructor
  · intro hguard
    have hcond : ¬ (seq = .continuingTransaction ∧
        b.st.currentTransactionSize ≠ some .u32) := by
      rintro ⟨h1, h2⟩
      exact h2 (hguard h1)
    unfold read_ddata_with_timeout
    rw [if_neg hcond]
    exact read_ddata_loop_all_pending probe elapsed seq timeout hp fuel 0 b
      ⟨j, by omega, by omega, hj2⟩
  · intro hguard hsize
    have hcond : ¬ (seq = .continuingTransaction ∧
        b.st.currentTransactionSize ≠ some .u32) := by
      rintro ⟨h1, h2⟩
      exact h2 (hguard h1)
    unfold write_ddata_with_timeout
    rw [if_neg hcond, if_neg (by simp [hsize])]
    exact write_ddata_loop_all_pending probe elapsed data seq timeout hp fuel 0 b
      ⟨j, by omega, by omega, hj2⟩

/-- Witness for C2: with an always-pending probe and the elapsed clock
exceeding a zero timeout at the second poll, a single-shot DDATA read on
a fresh bridge returns `Timeout` with the state still `(none, none)`. -/
theorem c2_timeout_preserves_state_witness :
    ∃ m, 1 ≤ m ∧
      read_ddata_with_timeout (fun _ _ => false) (fun i => i) .lastTransaction 0 2
          Bridge.new =
        .err .timeout { Bridge.new with
          trace := Bridge.new.trace ++
            List.replicate m (.ddata .lastTransaction [0, 0, 0, 0]),
          nd := Bridge.new.nd + m } :=
  (c2_timeout_preserves_state (fun _ _ => false) (fun i => i) 0 2 Bridge.new
      .lastTransaction (.u32 0) (fun _ => rfl) ⟨1, by norm_num, by norm_num⟩).1
    (fun h => SeqFlag.noConfusion h)

/-! ## Step lemmas for the DDATA polling loops -/

/-- The per-width decode table of `transform_ddata_result` on a completed
read, as a function of the open width. -/
def readDecode (sz : TransactionSize) (bits : Nat → Bool) : TransactionData :=
  match sz with
  | .u32 => .u32 (loadBE bits 0 4)
  | .u16 => .u16 (loadBE bits 2 2)
  | .u8 => .u8 (loadBE bits 3 1)

lemma readDecode_size (sz : TransactionSize) (bits : Nat → Bool) :
    (readDecode sz bits).size = sz := by
  cases sz <;> rfl

lemma read_ddata_loop_done (probe : Nat → Nat → Bool) (elapsed : Nat → Nat)
    (seq : SeqFlag) (timeout fuel i : Nat) (b : Bridge) (sz : TransactionSize)
    (h32 : probe b.nd 32 = true)
    (hkind : b.st.currentTransactionKind = some .rd)
    (hsize : b.st.currentTransactionSize = some sz) :
    read_ddata_loop probe elapsed seq timeout (fuel + 1) i b =
      .ok (readDecode sz (probe b.nd))
        (if seq = .lastTransaction then
          { st := ⟨none, none⟩, trace := b.trace ++ [.ddata seq [0, 0, 0, 0]],
            nd := b.nd + 1 }
         else
          { b with trace := b.trace ++ [.ddata seq [0, 0, 0, 0]], nd := b.nd + 1 }) := by
  rw [read_ddata_loop]
  have ht : transform_ddata_result b.st (probe b.nd) =
      some (.readDone (readDecode sz (probe b.nd))) := by
    cases sz <;> simp [transform_ddata_result, h32, hkind, hsize, readDecode]
  rw [ht]
  by_cases hs : seq = .lastTransaction
  · simp [hs]
  · simp [hs]

lemma read_ddata_loop_pending_step (probe : Nat → Nat → Bool) (elapsed : Nat → Nat)
    (seq : SeqFlag) (timeout fuel i : Nat) (b : Bridge)
    (h32 : probe b.nd 32 = false) :
    read_ddata_loop probe elapsed seq timeout (fuel + 1) i b =
      (if timeout < elapsed i then
        .err .timeout
          { b with trace := b.trace ++ [.ddata seq [0, 0, 0, 0]], nd := b.nd + 1 }
       else
        read_ddata_loop probe elapsed seq timeout fuel (i + 1)
          { b with trace := b.trace ++ [.ddata seq [0, 0, 0, 0]], nd := b.nd + 1 }) := by
  rw [read_ddata_loop]
  have ht : transform_ddata_result b.st (probe b.nd) = some .pending := by
    simp [transform_ddata_result, h32]
  rw [ht]

lemma write_ddata_loop_done (probe : Nat → Nat → Bool) (elapsed : Nat → Nat)
    (data : TransactionData) (seq : SeqFlag) (timeout fuel i : Nat) (b : Bridge)
    (h32 : probe b.nd 32 = true)
    (hkind : b.st.currentTransactionKind = some .wr) :
    write_ddata_loop probe elapsed data seq timeout (fuel + 1) i b =
      .ok ()
        (if seq = .lastTransaction then
          { st := ⟨none, none⟩, trace := b.trace ++ [.ddata seq data.encode],
            nd := b.nd + 1 }
         else
          { b with trace := b.trace ++ [.ddata seq data.encode], nd := b.nd + 1 }) := by
  rw [write_ddata_loop]
  have ht : transform_ddata_result b.st (probe b.nd) = some .writeDone := by
    simp [transform_ddata_result, h32, hkind]
  rw [ht]
  by_cases hs : seq = .lastTransaction
  · simp [hs]
  · simp [hs]

lemma write_ddata_loop_pending_step (probe : Nat → Nat → Bool) (elapsed : Nat → Nat)
    (data : TransactionData) (seq : SeqFlag) (timeout fuel i : Nat) (b : Bridge)
    (h32 : probe b.nd 32 = false) :
    write_ddata_loop probe elapsed data seq timeout (fuel + 1) i b =
      (if timeout < elapsed i then
        .err .timeout
          { b with trace := b.trace ++ [.ddata seq data.encode], nd := b.nd + 1 }
       else
        write_ddata_loop probe elapsed data seq timeout fuel (i + 1)
          { b with trace := b.trace ++ [.ddata seq data.encode], nd := b.nd + 1 }) := by
  rw [write_ddata_loop]
  have ht : transform_ddata_result b.st (probe b.nd) = some .pending := by
    simp [transform_ddata_result, h32]
  rw [ht]

/-! ## Theorems: the DDATA assertions never fire (claim C5) -/

lemma read_ddata_loop_shape (probe : Nat → Nat → Bool) (elapsed : Nat → Nat)
    (seq : SeqFlag) (timeout : Nat) (sz : TransactionSize) :
    ∀ fuel i b, b.st.currentTransactionKind = some .rd →
      b.st.currentTransactionSize = some sz →
      read_ddata_loop probe elapsed seq timeout fuel i b = .fuelOut ∨
      (∃ b', read_ddata_loop probe elapsed seq timeout fuel i b = .err .timeout b' ∧
        b'.st = b.st) ∨
      (∃ d b', read_ddata_loop probe elapsed seq timeout fuel i b = .ok d b' ∧
        d.size = sz ∧ (seq = .continuingTransaction → b'.st = b.st)) := by
  intro fuel
  induction fuel with
  | zero => intro i b _ _; exact Or.inl rfl
  | succ fuel ih =>
    intro i b hkind hsize
    by_cases h32 : probe b.nd 32 = true
    · rw [read_ddata_loop_done probe elapsed seq timeout fuel i b sz h32 hkind hsize]
      by_cases hs : seq = .lastTransaction
      · rw [if_pos hs]
        exact Or.inr (Or.inr ⟨_, _, rfl, readDecode_size sz _,
          fun hc => absurd (hs ▸ hc) (by decide)⟩)
      · rw [if_neg hs]
        exact Or.inr (Or.inr ⟨_, _, rfl, readDecode_size sz _, fun _ => rfl⟩)
    · have h32f : probe b.nd 32 = false := by
        cases hb : probe b.nd 32
        · rfl
        · exact absurd hb h32
      rw [read_ddata_loop_pending_step probe elapsed seq timeout fuel i b h32f]
      by_cases he : timeout < elapsed i
      · rw [if_pos he]
        exact Or.inr (Or.inl ⟨_, rfl, rfl⟩)
      · rw [if_neg he]
        exact ih (i + 1) _ hkind hsize

lemma write_ddata_loop_shape (probe : Nat → Nat → Bool) (elapsed : Nat → Nat)
    (data : TransactionData) (seq : SeqFlag) (timeout : Nat) :
    ∀ fuel i b, b.st.currentTransactionKind = some .wr →
      write_ddata_loop probe elapsed data seq timeout fuel i b = .fuelOut ∨
      (∃ b', write_ddata_loop probe elapsed data seq timeout fuel i b =
        .err .timeout b' ∧ b'.st = b.st) ∨
      (∃ b', write_ddata_loop probe elapsed data seq timeout fuel i b = .ok () b' ∧
        (seq = .continuingTransaction → b'.st = b.st)) := by
  intro fuel
  induction fuel with
  | zero => intro i b _; exact Or.inl rfl
  | succ fuel ih =>
    intro i b hkind
    by_cases h32 : probe b.nd 32 = true
    · rw [write_ddata_loop_done probe elapsed data seq timeout fuel i b h32 hkind]
      by_cases hs : seq = .lastTransaction
      · rw [if_pos hs]
        exact Or.inr (Or.inr ⟨_, rfl, fun hc => absurd (hs ▸ hc) (by decide)⟩)
      · rw [if_neg hs]
        exact Or.inr (Or.inr ⟨_, rfl, fun _ => rfl⟩)
    · have h32f : probe b.nd 32 = false := by
        cases hb : probe b.nd 32
        · rfl
        · exact absurd hb h32
      rw [write_ddata_loop_pending_step probe elapsed data seq timeout fuel i b h32f]
      by_cases he : timeout < elapsed i
      · rw [if_pos he]
        exact Or.inr (Or.inl ⟨_, rfl, rfl⟩)
      · rw [if_neg he]
        exact ih (i + 1) _ hkind

lemma read_ddata_with_timeout_shape (probe : Nat → Nat → Bool) (elapsed : Nat → Nat)
    (seq : SeqFlag) (timeout fuel : Nat) (b : Bridge) (sz : TransactionSize)
    (hkind : b.st.currentTransactionKind = some .rd)
    (hsize : b.st.currentTransactionSize = some sz)
    (hguard : seq = .continuingTransaction → sz = .u32) :
    read_ddata_with_timeout probe elapsed seq timeout fuel b = .fuelOut ∨
    (∃ b', read_ddata_with_timeout probe elapsed seq timeout fuel b =
      .err .timeout b' ∧ b'.st = b.st) ∨
    (∃ d b', read_ddata_with_timeout probe elapsed seq timeout fuel b = .ok d b' ∧
      d.size = sz ∧ (seq = .continuingTransaction → b'.st = b.st)) := by
  unfold read_ddata_with_timeout
  rw [if_neg (by
    rintro ⟨h1, h2⟩
    exact h2 (by rw [hsize, hguard h1]))]
  exact read_ddata_loop_shape probe elapsed seq timeout sz fuel 0 b hkind hsize

lemma write_ddata_with_timeout_shape (probe : Nat → Nat → Bool) (elapsed : Nat → Nat)
    (data : TransactionData) (seq : SeqFlag) (timeout fuel : Nat) (b : Bridge)
    (hkind : b.st.currentTransactionKind = some .wr)
    (hsize : b.st.currentTransactionSize = some data.size)
    (hguard : seq = .continuingTransaction → data.size = .u32) :
    write_ddata_with_timeout probe elapsed data seq timeout fuel b = .fuelOut ∨
    (∃ b', write_ddata_with_timeout probe elapsed data seq timeout fuel b =
      .err .timeout b' ∧ b'.st = b.st) ∨
    (∃ b', write_ddata_with_timeout probe elapsed data seq timeout fuel b =
      .ok () b' ∧ (seq = .continuingTransaction → b'.st = b.st)) := by
  unfold write_ddata_with_timeout
  rw [if_neg (by
    rintro ⟨h1, h2⟩
    exact h2 (by rw [hsize, hguard h1]))]
  rw [if_neg (by
    intro hc
    exact hc hsize.symm)]
  exact write_ddata_loop_shape probe elapsed data seq timeout fuel 0 b hkind

lemma asU32_of_size (d : TransactionData) (h : d.size = .u32) :
    ∃ w, d.asU32 = some w := by
  cases d with
  | u32 w => exact ⟨w, rfl⟩
  | u16 w => simp [TransactionData.size] at h
  | u8 w => simp [TransactionData.size] at h

lemma asU16_of_size (d : TransactionData) (h : d.size = .u16) :
    ∃ w, d.asU16 = some w := by
  cases d with
  | u16 w => exact ⟨w, rfl⟩
  | u32 w => simp [TransactionData.size] at h
  | u8 w => simp [TransactionData.size] at h

lemma asU8_of_size (d : TransactionData) (h : d.size = .u8) :
    ∃ w, d.asU8 = some w := by
  cases d with
  | u8 w => exact ⟨w, rfl⟩
  | u16 w => simp [TransactionData.size] at h
  | u32 w => simp [TransactionData.size] at h

lemma read32_run_no_panic (probe : Nat → Nat → Bool) (elapsedGen : Nat → Nat → Nat)
    (timeout fuel : Nat) :
    ∀ run : List Nat, ∀ b : Bridge, b.st = ⟨some .u32, some .rd⟩ →
      read32_run probe elapsedGen timeout fuel run b ≠ .panic := by
  intro run
  induction run with
  | nil =>
    intro b _ hpanic
    rw [read32_run] at hpanic
    exact Res.noConfusion hpanic
  | cons x rest ih =>
    intro b hst hpanic
    simp only [read32_run] at hpanic
    cases rest with
    | nil =>
      rcases read_ddata_with_timeout_shape probe (elapsedGen b.nd) .lastTransaction
          timeout fuel b .u32 (by rw [hst]) (by rw [hst]) (fun h => nomatch h) with
        heq | ⟨b', heq, _⟩ | ⟨d, b', heq, hdsz, _⟩
      · rw [show (if ([] : List Nat).isEmpty = true then SeqFlag.lastTransaction
          else SeqFlag.continuingTransaction) = SeqFlag.lastTransaction from rfl] at hpanic
        rw [heq] at hpanic
        simp at hpanic
      · rw [show (if ([] : List Nat).isEmpty = true then SeqFlag.lastTransaction
          else SeqFlag.continuingTransaction) = SeqFlag.lastTransaction from rfl] at hpanic
        rw [heq] at hpanic
        simp at hpanic
      · obtain ⟨w, hw⟩ := asU32_of_size d hdsz
        rw [show (if ([] : List Nat).isEmpty = true then SeqFlag.lastTransaction
          else SeqFlag.continuingTransaction) = SeqFlag.lastTransaction from rfl] at hpanic
        rw [heq] at hpanic
        simp only [hw] at hpanic
        rw [read32_run] at hpanic
        simp at hpanic
    | cons y t =>
      rcases read_ddata_with_timeout_shape probe (elapsedGen b.nd)
          .continuingTransaction timeout fuel b .u32 (by rw [hst]) (by rw [hst])
          (fun _ => rfl) with
        heq | ⟨b', heq, _⟩ | ⟨d, b', heq, hdsz, hcont⟩
      · rw [show (if (y :: t).isEmpty = true then SeqFlag.lastTransaction
          else SeqFlag.continuingTransaction) = SeqFlag.continuingTransaction from rfl,
          heq] at hpanic
        simp at hpanic
      · rw [show (if (y :: t).isEmpty = true then SeqFlag.lastTransaction
          else SeqFlag.continuingTransaction) = SeqFlag.continuingTransaction from rfl,
          heq] at hpanic
        simp at hpanic
      · obtain ⟨w, hw⟩ := asU32_of_size d hdsz
        rw [show (if (y :: t).isEmpty = true then SeqFlag.lastTransaction
          else SeqFlag.continuingTransaction) = SeqFlag.continuingTransaction from rfl,
          heq] at hpanic
        simp only [hw] at hpanic
        have hst' : b'.st = ⟨some .u32, some .rd⟩ := by rw [hcont rfl, hst]
        cases hrec : read32_run probe elapsedGen timeout fuel (y :: t) b' with
        | ok ws b'' => rw [hrec] at hpanic; simp at hpanic
        | err e b'' => rw [hrec] at hpanic; simp at hpanic
        | panic => exact ih b' hst' hrec
        | fuelOut => rw [hrec] at hpanic; simp at hpanic

lemma write32_run_no_panic (probe : Nat → Nat → Bool) (elapsedGen : Nat → Nat → Nat)
    (timeout fuel : Nat) :
    ∀ run : List (Nat × Nat), ∀ b : Bridge, b.st = ⟨some .u32, some .wr⟩ →
      write32_run probe elapsedGen timeout fuel run b ≠ .panic := by
  intro run
  induction run with
  | nil =>
    intro b _ hpanic
    rw [write32_run] at hpanic
    exact Res.noConfusion hpanic
  | cons p rest ih =>
    obtain ⟨idx, w⟩ := p
    intro b hst hpanic
    simp only [write32_run] at hpanic
    cases rest with
    | nil =>
      rcases write_ddata_with_timeout_shape probe (elapsedGen b.nd) (.u32 w)
          .lastTransaction timeout fuel b (by rw [hst]) (by rw [hst]; rfl)
          (fun h => nomatch h) with
        heq | ⟨b', heq, _⟩ | ⟨b', heq, _⟩
      · rw [show (if ([] : List (Nat × Nat)).isEmpty = true then SeqFlag.lastTransaction
          else SeqFlag.continuingTransaction) = SeqFlag.lastTransaction from rfl,
          heq] at hpanic
        simp at hpanic
      · rw [show (if ([] : List (Nat × Nat)).isEmpty = true then SeqFlag.lastTransaction
          else SeqFlag.continuingTransaction) = SeqFlag.lastTransaction from rfl,
          heq] at hpanic
        simp at hpanic
      · rw [show (if ([] : List (Nat × Nat)).isEmpty = true then SeqFlag.lastTransaction
          else SeqFlag.continuingTransaction) = SeqFlag.lastTransaction from rfl,
          heq] at hpanic
        simp only [write32_run] at hpanic
        exact Res.noConfusion hpanic
    | cons q t =>
      rcases write_ddata_with_timeout_shape probe (elapsedGen b.nd) (.u32 w)
          .continuingTransaction timeout fuel b (by rw [hst]) (by rw [hst]; rfl)
          (fun _ => rfl) with
        heq | ⟨b', heq, _⟩ | ⟨b', heq, hcont⟩
      · rw [show (if (q :: t).isEmpty = true then SeqFlag.lastTransaction
          else SeqFlag.continuingTransaction) = SeqFlag.continuingTransaction from rfl,
          heq] at hpanic
        simp at hpanic
      · rw [show (if (q :: t).isEmpty = true then SeqFlag.lastTransaction
          else SeqFlag.continuingTransaction) = SeqFlag.continuingTransaction from rfl,
          heq] at hpanic
        simp at hpanic
      · rw [show (if (q :: t).isEmpty = true then SeqFlag.lastTransaction
          else SeqFlag.continuingTransaction) = SeqFlag.continuingTransaction from rfl,
          heq] at hpanic
        have hst' : b'.st = ⟨some .u32, some .wr⟩ := by rw [hcont rfl, hst]
        exact ih b' hst' hpanic

lemma read32_chunks_run_no_panic (probe : Nat → Nat → Bool)
    (elapsedGen : Nat → Nat → Nat) (timeout fuel address : Nat) :
    ∀ cl : List (Nat × List Nat), ∀ b : Bridge,
      read32_chunks_run probe elapsedGen timeout fuel address cl b ≠ .panic := by
  intro cl
  induction cl with
  | nil =>
    intro b hpanic
    rw [read32_chunks_run] at hpanic
    exact Res.noConfusion hpanic
  | cons p rest ih =>
    obtain ⟨k, run⟩ := p
    intro b hpanic
    simp only [read32_chunks_run] at hpanic
    cases hrun : read32_run probe elapsedGen timeout fuel run
        (write_adata (max address (k * 1024)) .rd .u32 b) with
    | ok ws b2 =>
      cases hrec : read32_chunks_run probe elapsedGen timeout fuel address rest b2 with
      | ok ws' b3 => simp only [hrun, hrec] at hpanic; exact Res.noConfusion hpanic
      | err e b3 => simp only [hrun, hrec] at hpanic; exact Res.noConfusion hpanic
      | panic => exact ih b2 hrec
      | fuelOut => simp only [hrun, hrec] at hpanic; exact Res.noConfusion hpanic
    | err e b2 => simp only [hrun] at hpanic; exact Res.noConfusion hpanic
    | panic => exact read32_run_no_panic probe elapsedGen timeout fuel run _ rfl hrun
    | fuelOut => simp only [hrun] at hpanic; exact Res.noConfusion hpanic

lemma write32_chunks_run_no_panic (probe : Nat → Nat → Bool)
    (elapsedGen : Nat → Nat → Nat) (timeout fuel address : Nat) :
    ∀ cl : List (Nat × List (Nat × Nat)), ∀ b : Bridge,
      write32_chunks_run probe elapsedGen timeout fuel address cl b ≠ .panic := by
  intro cl
  induction cl with
  | nil =>
    intro b hpanic
    rw [write32_chunks_run] at hpanic
    exact Res.noConfusion hpanic
  | cons p rest ih =>
    obtain ⟨k, run⟩ := p
    intro b hpanic
    simp only [write32_chunks_run] at hpanic
    cases hrun : write32_run probe elapsedGen timeout fuel run
        (write_adata (max address (k * 1024)) .wr .u32 b) with
    | ok u b2 =>
      simp only [hrun] at hpanic
      exact ih b2 hpanic
    | err e b2 => simp only [hrun] at hpanic; exact Res.noConfusion hpanic
    | panic => exact write32_run_no_panic probe elapsedGen timeout fuel run _ rfl hrun
    | fuelOut => simp only [hrun] at hpanic; exact Res.noConfusion hpanic

/-- C5: every DDATA shift the bridge's own read/write operations issue
happens with a transaction open whose width and kind match the shift —
SEQ=1 only under an open `U32`, write payload width equal to the open
width — so none of the `assert_eq!`/`panic!`/`unreachable!` guards in
`read_ddata_with_timeout`, `write_ddata_with_timeout`,
`transform_ddata_result` or the `as_*` accessors can fire: under any
probe responses, any poll clock, any fuel and any starting bridge, no
public operation evaluates to the `panic` outcome (for the word-array
operations, provided the byte count fits in `u32`, which is the separate
bounds-check panic of C7, not a DDATA assertion). -/
theorem c5_assertions_never_fire (probe : Nat → Nat → Bool)
    (elapsedGen : Nat → Nat → Nat) (address timeout fuel : Nat) (b : Bridge) :
    (∀ n : Nat, n * 4 ≤ 4294967295 →
      read32_with_timeout probe elapsedGen address n timeout fuel b ≠ .panic) ∧
    (∀ data : List Nat, data.length * 4 ≤ 4294967295 →
      write32_with_timeout probe elapsedGen address data timeout fuel b ≠ .panic) ∧
    read16_with_timeout probe elapsedGen address timeout fuel b ≠ .panic ∧
    read8_with_timeout probe elapsedGen address timeout fuel b ≠ .panic ∧
    (∀ d : Nat,
      write16_with_timeout probe elapsedGen address d timeout fuel b ≠ .panic) ∧
    (∀ d : Nat,
      write8_with_timeout probe elapsedGen address d timeout fuel b ≠ .panic) := by
  refine ⟨?_, ?_, ?_, ?_, ?_, ?_⟩
  · intro n hn hpanic
    unfold read32_with_timeout at hpanic
    cases hc : check_out_of_bounds address (n * 4) with
    | none =>
      unfold check_out_of_bounds at hc
      split_ifs at hc <;> omega
    | some r =>
      rw [hc] at hpanic
      cases r with
      | error e => simp at hpanic
      | ok u =>
        exact read32_chunks_run_no_panic probe elapsedGen timeout fuel address _ b hpanic
  · intro data hn hpanic
    unfold write32_with_timeout at hpanic
    cases hc : check_out_of_bounds address (data.length * 4) with
    | none =>
      unfold check_out_of_bounds at hc
      split_ifs at hc <;> omega
    | some r =>
      rw [hc] at hpanic
      cases r with
      | error e => simp at hpanic
      | ok u =>
        exact write32_chunks_run_no_panic probe elapsedGen timeout fuel address _ b hpanic
  · intro hpanic
    simp only [read16_with_timeout] at hpanic
    rcases read_ddata_with_timeout_shape probe
        (elapsedGen (write_adata address .rd .u16 b).nd) .lastTransaction timeout fuel
        (write_adata address .rd .u16 b) .u16 rfl rfl (fun h => nomatch h) with
      heq | ⟨b', heq, _⟩ | ⟨d, b', heq, hdsz, _⟩
    · rw [heq] at hpanic; simp at hpanic
    · rw [heq] at hpanic; simp at hpanic
    · obtain ⟨w, hw⟩ := asU16_of_size d hdsz
      rw [heq] at hpanic
      simp only [hw] at hpanic
      simp at hpanic
  · intro hpanic
    simp only [read8_with_timeout] at hpanic
    rcases read_ddata_with_timeout_shape probe
        (elapsedGen (write_adata address .rd .u8 b).nd) .lastTransaction timeout fuel
        (write_adata address .rd .u8 b) .u8 rfl rfl (fun h => nomatch h) with
      heq | ⟨b', heq, _⟩ | ⟨d, b', heq, hdsz, _⟩
    · rw [heq] at hpanic; simp at hpanic
    · rw [heq] at hpanic; simp at hpanic
    · obtain ⟨w, hw⟩ := asU8_of_size d hdsz
      rw [heq] at hpanic
      simp only [hw] at hpanic
      simp at hpanic
  · intro d hpanic
    simp only [write16_with_timeout] at hpanic
    rcases write_ddata_with_timeout_shape probe
        (elapsedGen (write_adata address .wr .u16 b).nd) (.u16 d) .lastTransaction
        timeout fuel (write_adata address .wr .u16 b) rfl rfl (fun h => nomatch h) with
      heq | ⟨b', heq, _⟩ | ⟨b', heq, _⟩ <;> rw [heq] at hpanic <;> exact Res.noConfusion hpanic
  · intro d hpanic
    simp only [write8_with_timeout] at hpanic
    rcases write_ddata_with_timeout_shape probe
        (elapsedGen (write_adata address .wr .u8 b).nd) (.u8 d) .lastTransaction
        timeout fuel (write_adata address .wr .u8 b) rfl rfl (fun h => nomatch h) with
      heq | ⟨b', heq, _⟩ | ⟨b', heq, _⟩ <;> rw [heq] at hpanic <;> exact Res.noConfusion hpanic

/-- Witness for C5: a one-word read on a fresh bridge under an
immediately-done probe does not panic. -/
theorem c5_assertions_never_fire_witness :
    read32_with_timeout (fun _ _ => true) (fun _ _ => 0) 0 1 0 1 Bridge.new ≠ .panic :=
  (c5_assertions_never_fire (fun _ _ => true) (fun _ _ => 0) 0 0 1 Bridge.new).1 1
    (by norm_num)

/-! ## Halt procedure (claim C4)

`Leon3::halt` (mod.rs) performs a read-modify-write of DSU_BRSS setting
BN[k] (`modify_dsu_reg` with `reg.set_bn(core_index, true)`), then
`wait_for_core_halted` (communication_interface.rs) polls `core_halted`
with a 1 ms inter-poll sleep and a `start.elapsed() >= timeout` deadline
check, and on success `core_info` reads PC.  The environment supplies the
DSU_CTRL value observed at each poll (`ctrlAt`), the elapsed clock, the
BRSS value the read-modify-write reads, and the PC value. -/

/-- `Leon3CommunicationInterface::core_halted`: HL (bit 10) or PE (bit 9)
or DM (bit 6) of DSU_CTRL, per the dsu3.rs bit declarations. -/
def coreHalted (ctrl : Nat) : Bool :=
  ctrl.testBit 10 || ctrl.testBit 9 || ctrl.testBit 6

structure CoreInformation where
  pc : Nat
deriving DecidableEq, Repr

inductive WaitRes where
  | halted (i : Nat)
  | timedOut
  | fuelOut
deriving DecidableEq, Repr

/-- `Leon3CommunicationInterface::wait_for_core_halted`: poll
`core_halted` (one DSU_CTRL read per poll); if not halted and
`elapsed ≥ timeout` return `Timeout`, otherwise sleep 1 ms and poll
again. -/
def wait_for_core_halted (ctrlAt : Nat → Nat) (elapsed : Nat → Nat) (timeout : Nat) :
    Nat → Nat → WaitRes × List DsuEvent
  | 0, _ => (.fuelOut, [])
  | fuel + 1, i =>
    if coreHalted (ctrlAt i) then (.halted i, [DsuEvent.readCtrl])
    else if timeout ≤ elapsed i then (.timedOut, [DsuEvent.readCtrl])
    else
      let r := wait_for_core_halted ctrlAt elapsed timeout fuel (i + 1)
      (r.1, DsuEvent.readCtrl :: DsuEvent.sleepMs 1 :: r.2)

/-- `Leon3::halt` over the environment: BRSS read-modify-write with
BN[k] set, the polling wait, and on success a PC read yielding the
returned core information. `none` models fuel exhaustion (the wait loop
still running). -/
def Leon3.halt (k brssVal : Nat) (ctrlAt : Nat → Nat) (elapsed : Nat → Nat)
    (timeout fuel pcVal : Nat) :
    Option (Except Leon3Error CoreInformation × List DsuEvent) :=
  match wait_for_core_halted ctrlAt elapsed timeout fuel 0 with
  | (.halted _, wtr) =>
    some (.ok ⟨pcVal⟩,
      [DsuEvent.readBrss, DsuEvent.writeBrss (brssVal ||| 2 ^ k)] ++ wtr ++
        [DsuEvent.readPc])
  | (.timedOut, wtr) =>
    some (.error .timeout,
      [DsuEvent.readBrss, DsuEvent.writeBrss (brssVal ||| 2 ^ k)] ++ wtr)
  | (.fuelOut, _) => none

/-- The poll trace before a terminating poll: one DSU_CTRL read and one
1 ms sleep per unsuccessful poll. -/
def pollPrefix (n : Nat) : List DsuEvent :=
  (List.replicate n [DsuEvent.readCtrl, DsuEvent.sleepMs 1]).join

lemma pollPrefix_succ (n : Nat) :
    pollPrefix (n + 1) = DsuEvent.readCtrl :: DsuEvent.sleepMs 1 :: pollPrefix n := by
  simp [pollPrefix, List.replicate_succ]

lemma wait_halted_facts (ctrlAt : Nat → Nat) (elapsed : Nat → Nat) (timeout : Nat) :
    ∀ fuel i0 i tr,
      wait_for_core_halted ctrlAt elapsed timeout fuel i0 = (.halted i, tr) →
      coreHalted (ctrlAt i) = true ∧ i0 ≤ i ∧ i < i0 + fuel ∧
        tr = pollPrefix (i - i0) ++ [DsuEvent.readCtrl] := by
  intro fuel
  induction fuel with
  | zero =>
    intro i0 i tr h
    rw [wait_for_core_halted] at h
    exact WaitRes.noConfusion (congrArg Prod.fst h)
  | succ fuel ih =>
    intro i0 i tr h
    rw [wait_for_core_halted] at h
    by_cases hh : coreHalted (ctrlAt i0)
    · rw [if_pos hh] at h
      obtain ⟨h1, h2⟩ := Prod.mk.injEq .. ▸ h
      cases h1
      refine ⟨hh, le_refl _, by omega, ?_⟩
      rw [← h2]
      simp [pollPrefix]
    · rw [if_neg hh] at h
      by_cases he : timeout ≤ elapsed i0
      · rw [if_pos he] at h
        exact absurd (congrArg Prod.fst h) (by simp)
      · rw [if_neg he] at h
        obtain ⟨h1, h2⟩ := Prod.mk.injEq .. ▸ h
        obtain ⟨hc, hle, hlt, htr⟩ := ih (i0 + 1) i
          (wait_for_core_halted ctrlAt elapsed timeout fuel (i0 + 1)).2
          (by rw [← h1])
        have hi : i0 < i := hle
        refine ⟨hc, by omega, by omega, ?_⟩
        rw [← h2, htr]
        have : i - i0 = (i - (i0 + 1)) + 1 := by omega
        rw [this, pollPrefix_succ]
        rfl

lemma wait_timeout_of_never_halted (ctrlAt : Nat → Nat) (elapsed : Nat → Nat)
    (timeout : Nat) (hnever : ∀ j, coreHalted (ctrlAt j) = false) :
    ∀ fuel i0, (∃ j, i0 ≤ j ∧ j < i0 + fuel ∧ timeout ≤ elapsed j) →
      (wait_for_core_halted ctrlAt elapsed timeout fuel i0).1 = .timedOut := by
  intro fuel
  induction fuel with
  | zero => intro i0 ⟨j, h1, h2, _⟩; omega
  | succ fuel ih =>
    intro i0 ⟨j, h1, h2, h3⟩
    rw [wait_for_core_halted]
    rw [if_neg (by rw [hnever i0]; exact Bool.false_ne_true)]
    by_cases he : timeout ≤ elapsed i0
    · rw [if_pos he]
    · rw [if_neg he]
      have : j ≠ i0 := fun hji => he (hji ▸ h3)
      exact ih (i0 + 1) ⟨j, by omega, by omega, h3⟩

/-- C4: `halt(timeout)` first performs a read-modify-write of DSU_BRSS
whose written value has BN[k] set, then polls `core_halted` — which is
exactly HL ∨ PE ∨ DM of DSU_CTRL — with a 1 ms sleep between polls,
returns `Timeout` on deadline expiry, and when it returns Ok the
terminating poll observed `core_halted` true and the returned core
information is the PC value read from the core after the wait succeeds,
the PC read coming last in the traffic. -/
theorem c4_halt_procedure (k brssVal : Nat) (ctrlAt : Nat → Nat)
    (elapsed : Nat → Nat) (timeout fuel pcVal : Nat) :
    (∀ v : Nat, coreHalted v = (v.testBit 10 || v.testBit 9 || v.testBit 6)) ∧
    (∀ res tr, Leon3.halt k brssVal ctrlAt elapsed timeout fuel pcVal =
        some (res, tr) →
      tr.take 2 = [DsuEvent.readBrss, DsuEvent.writeBrss (brssVal ||| 2 ^ k)] ∧
      (brssVal ||| 2 ^ k).testBit k = true) ∧
    ((∀ j, coreHalted (ctrlAt j) = false) →
      (∃ j, j < fuel ∧ timeout ≤ elapsed j) →
      ∃ tr, Leon3.halt k brssVal ctrlAt elapsed timeout fuel pcVal =
        some (.error .timeout, tr)) ∧
    (∀ info tr, Leon3.halt k brssVal ctrlAt elapsed timeout fuel pcVal =
        some (.ok info, tr) →
      info.pc = pcVal ∧
      ∃ i, coreHalted (ctrlAt i) = true ∧ i < fuel ∧
        tr = [DsuEvent.readBrss, DsuEvent.writeBrss (brssVal ||| 2 ^ k)] ++
          (pollPrefix i ++ [DsuEvent.readCtrl]) ++ [DsuEvent.readPc]) := by
  have hbit : (brssVal ||| 2 ^ k).testBit k = true := by
    rw [Nat.testBit_or, Nat.testBit_two_pow_self, Bool.or_true]
  refine ⟨fun v => rfl, ?_, ?_, ?_⟩
  · intro res tr h
    unfold Leon3.halt at h
    rcases hwp : wait_for_core_halted ctrlAt elapsed timeout fuel 0 with ⟨w1, wtr⟩
    rw [hwp] at h
    cases w1 with
    | halted i =>
      simp only [Option.some.injEq, Prod.mk.injEq] at h
      rw [← h.2]
      exact ⟨rfl, hbit⟩
    | timedOut =>
      simp only [Option.some.injEq, Prod.mk.injEq] at h
      rw [← h.2]
      exact ⟨rfl, hbit⟩
    | fuelOut => exact Option.noConfusion h
  · intro hnever hj
    obtain ⟨j, hj1, hj2⟩ := hj
    have hw1 := wait_timeout_of_never_halted ctrlAt elapsed timeout hnever fuel 0
      ⟨j, by omega, by omega, hj2⟩
    unfold Leon3.halt
    rcases hwp : wait_for_core_halted ctrlAt elapsed timeout fuel 0 with ⟨w1, wtr⟩
    rw [hwp] at hw1
    simp only at hw1
    cases hw1
    exact ⟨_, rfl⟩
  · intro info tr h
    unfold Leon3.halt at h
    rcases hwp : wait_for_core_halted ctrlAt elapsed timeout fuel 0 with ⟨w1, wtr⟩
    rw [hwp] at h
    cases w1 with
    | halted i =>
      simp only [Option.some.injEq, Prod.mk.injEq, Except.ok.injEq] at h
      obtain ⟨hc, hle, hlt, htr⟩ :=
        wait_halted_facts ctrlAt elapsed timeout fuel 0 i wtr hwp
      refine ⟨by rw [← h.1], i, hc, by omega, ?_⟩
      rw [← h.2, htr, Nat.sub_zero]
    | timedOut => simp at h
    | fuelOut => exact Option.noConfusion h

/-- Witness for C4: with the core halting at the second poll (DM set in
DSU_CTRL), `halt` returns the PC read after the wait, and the traffic is
BRSS read-modify-write, two polls separated by a 1 ms sleep, then the PC
read. -/
theorem c4_halt_procedure_witness :
    ∃ i, coreHalted ((fun j => if j = 0 then 0 else 64) i) = true ∧ i < 3 ∧
      [DsuEvent.readBrss, DsuEvent.writeBrss (0 ||| 2 ^ 0)] ++
          (pollPrefix i ++ [DsuEvent.readCtrl]) ++ [DsuEvent.readPc] =
        [DsuEvent.readBrss, DsuEvent.writeBrss (0 ||| 2 ^ 0)] ++
          (pollPrefix i ++ [DsuEvent.readCtrl]) ++ [DsuEvent.readPc] :=
  match (c4_halt_procedure 0 0 (fun j => if j = 0 then 0 else 64)
      (fun _ => 0) 5 3 77).2.2.2 ⟨77⟩ _ rfl with
  | ⟨_, i, hc, hlt, _⟩ => ⟨i, hc, hlt, rfl⟩

/-! ## Burst partitioning (claim C1) -/

lemma chunkByKeyAux_flatten {α : Type} (key : α → Nat) :
    ∀ l : List α, ∀ ck acc,
      (chunkByKeyAux key ck acc l).flatMap Prod.snd = acc.reverse ++ l := by
  intro l
  induction l with
  | nil => intro ck acc; simp [chunkByKeyAux]
  | cons x rest ih =>
    intro ck acc
    rw [chunkByKeyAux]
    by_cases h : key x = ck
    · rw [if_pos h, ih ck (x :: acc)]
      simp
    · rw [if_neg h]
      simp only [List.flatMap_cons, ih (key x) [x]]
      simp

lemma chunkByKey_flatten {α : Type} (key : α → Nat) (l : List α) :
    (chunkByKey key l).flatMap Prod.snd = l := by
  cases l with
  | nil => rfl
  | cons x rest =>
    rw [chunkByKey, chunkByKeyAux_flatten]
    simp

lemma chunkByKeyAux_runs {α : Type} (key : α → Nat) :
    ∀ l : List α, ∀ ck acc, acc ≠ [] → (∀ a ∈ acc, key a = ck) →
      ∀ p ∈ chunkByKeyAux key ck acc l, p.2 ≠ [] ∧ ∀ a ∈ p.2, key a = p.1 := by
  intro l
  induction l with
  | nil =>
    intro ck acc hne hkey p hp
    rw [chunkByKeyAux] at hp
    rw [List.mem_singleton] at hp
    subst hp
    refine ⟨by simpa using hne, ?_⟩
    intro a ha
    exact hkey a (List.mem_reverse.mp ha)
  | cons x rest ih =>
    intro ck acc hne hkey p hp
    rw [chunkByKeyAux] at hp
    by_cases h : key x = ck
    · rw [if_pos h] at hp
      refine ih ck (x :: acc) (by simp) ?_ p hp
      intro a ha
      rcases List.mem_cons.mp ha with rfl | ha
      · exact h
      · exact hkey a ha
    · rw [if_neg h] at hp
      rcases List.mem_cons.mp hp with rfl | hp
      · refine ⟨by simpa using hne, ?_⟩
        intro a ha
        exact hkey a (List.mem_reverse.mp ha)
      · exact ih (key x) [x] (by simp) (by simp) p hp

lemma chunkByKey_runs {α : Type} (key : α → Nat) (l : List α) :
    ∀ p ∈ chunkByKey key l, p.2 ≠ [] ∧ ∀ a ∈ p.2, key a = p.1 := by
  cases l with
  | nil => intro p hp; exact absurd hp (List.not_mem_nil p)
  | cons x rest =>
    rw [chunkByKey]
    exact chunkByKeyAux_runs key rest (key x) [x] (by simp) (by simp)

lemma chunkByKeyAux_head {α : Type} (key : α → Nat) :
    ∀ l : List α, ∀ ck acc, ∃ snd rest',
      chunkByKeyAux key ck acc l = (ck, snd) :: rest' := by
  intro l
  induction l with
  | nil => intro ck acc; exact ⟨acc.reverse, [], rfl⟩
  | cons x rest ih =>
    intro ck acc
    rw [chunkByKeyAux]
    by_cases h : key x = ck
    · rw [if_pos h]
      exact ih ck (x :: acc)
    · rw [if_neg h]
      exact ⟨acc.reverse, _, rfl⟩

lemma chunkByKeyAux_chain {α : Type} (key : α → Nat) :
    ∀ l : List α, ∀ ck acc,
      List.Chain' (fun a b : Nat × List α => a.1 ≠ b.1)
        (chunkByKeyAux key ck acc l) := by
  intro l
  induction l with
  | nil => intro ck acc; rw [chunkByKeyAux]; exact List.chain'_singleton _
  | cons x rest ih =>
    intro ck acc
    rw [chunkByKeyAux]
    by_cases h : key x = ck
    · rw [if_pos h]
      exact ih ck (x :: acc)
    · rw [if_neg h]
      obtain ⟨snd, rest', heq⟩ := chunkByKeyAux_head key rest (key x) [x]
      rw [heq]
      rw [List.chain'_cons]
      constructor
      · exact fun hc => h hc.symm
      · rw [← heq]
        exact ih (key x) [x]

lemma chunkByKey_chain {α : Type} (key : α → Nat) (l : List α) :
    List.Chain' (fun a b : Nat × List α => a.1 ≠ b.1) (chunkByKey key l) := by
  cases l with
  | nil => exact List.chain'_nil
  | cons x rest => exact chunkByKeyAux_chain key rest (key x) [x]

/-- The DDATA shifts of one read run: SEQ=1 (`ContinuingTransaction`) on
every shift except the run's last, which uses SEQ=0
(`LastTransaction`); a run of one word uses SEQ=0 on its sole shift. -/
def read32RunShifts : List Nat → List Shift
  | [] => []
  | [_] => [.ddata .lastTransaction [0, 0, 0, 0]]
  | _ :: x :: rest => .ddata .continuingTransaction [0, 0, 0, 0] ::
      read32RunShifts (x :: rest)

/-- The DDATA shifts of one write run over its `(index, word)` pairs. -/
def write32RunShifts : List (Nat × Nat) → List Shift
  | [] => []
  | [(_, w)] => [.ddata .lastTransaction (TransactionData.u32 w).encode]
  | (_, w) :: p :: rest => .ddata .continuingTransaction (TransactionData.u32 w).encode ::
      write32RunShifts (p :: rest)

/-- The whole expected shift trace of `read32_with_timeout(address, N)`:
one ADATA (Read, Word, `max(address, group_idx * 1024)`) per run followed
by the run's DDATA shifts. -/
def read32ExpectedTrace (address n : Nat) : List Shift :=
  (chunkByKey (burstKey address) (List.range n)).flatMap
    (fun p => .adata .rd .u32 (max address (p.1 * 1024)) :: read32RunShifts p.2)

/-- The whole expected shift trace of `write32_with_timeout(address, data)`. -/
def write32ExpectedTrace (address : Nat) (data : List Nat) : List Shift :=
  (chunkByKey (fun q => burstKey address q.1) data.enum).flatMap
    (fun p => .adata .wr .u32 (max address (p.1 * 1024)) :: write32RunShifts p.2)

lemma read_ddata_with_timeout_done (probe : Nat → Nat → Bool) (elapsed : Nat → Nat)
    (seq : SeqFlag) (timeout fuel : Nat) (b : Bridge) (sz : TransactionSize)
    (hdone : probe b.nd 32 = true) (hfuel : 1 ≤ fuel)
    (hkind : b.st.currentTransactionKind = some .rd)
    (hsize : b.st.currentTransactionSize = some sz)
    (hguard : seq = .continuingTransaction → sz = .u32) :
    read_ddata_with_timeout probe elapsed seq timeout fuel b =
      .ok (readDecode sz (probe b.nd))
        (if seq = .lastTransaction then
          { st := ⟨none, none⟩, trace := b.trace ++ [.ddata seq [0, 0, 0, 0]],
            nd := b.nd + 1 }
         else
          { b with trace := b.trace ++ [.ddata seq [0, 0, 0, 0]], nd := b.nd + 1 }) := by
  obtain ⟨f, rfl⟩ : ∃ f, fuel = f + 1 := ⟨fuel - 1, by omega⟩
  unfold read_ddata_with_timeout
  rw [if_neg (by
    rintro ⟨h1, h2⟩
    exact h2 (by rw [hsize, hguard h1]))]
  exact read_ddata_loop_done probe elapsed seq timeout f 0 b sz hdone hkind hsize

lemma write_ddata_with_timeout_done (probe : Nat → Nat → Bool) (elapsed : Nat → Nat)
    (data : TransactionData) (seq : SeqFlag) (timeout fuel : Nat) (b : Bridge)
    (hdone : probe b.nd 32 = true) (hfuel : 1 ≤ fuel)
    (hkind : b.st.currentTransactionKind = some .wr)
    (hsize : b.st.currentTransactionSize = some data.size)
    (hguard : seq = .continuingTransaction → data.size = .u32) :
    write_ddata_with_timeout probe elapsed data seq timeout fuel b =
      .ok ()
        (if seq = .lastTransaction then
          { st := ⟨none, none⟩, trace := b.trace ++ [.ddata seq data.encode],
            nd := b.nd + 1 }
         else
          { b with trace := b.trace ++ [.ddata seq data.encode], nd := b.nd + 1 }) := by
  obtain ⟨f, rfl⟩ : ∃ f, fuel = f + 1 := ⟨fuel - 1, by omega⟩
  unfold write_ddata_with_timeout
  rw [if_neg (by
    rintro ⟨h1, h2⟩
    exact h2 (by rw [hsize, hguard h1]))]
  rw [if_neg (fun hc => hc hsize.symm)]
  exact write_ddata_loop_done probe elapsed data seq timeout f 0 b hdone hkind

lemma read32_run_cons (probe : Nat → Nat → Bool) (elapsedGen : Nat → Nat → Nat)
    (timeout fuel x : Nat) (rest : List Nat) (b : Bridge) :
    read32_run probe elapsedGen timeout fuel (x :: rest) b =
      match read_ddata_with_timeout probe (elapsedGen b.nd)
          (if rest.isEmpty then .lastTransaction else .continuingTransaction)
          timeout fuel b with
      | .panic => .panic
      | .fuelOut => .fuelOut
      | .err e b' => .err e b'
      | .ok d b' =>
        match d.asU32 with
        | none => .panic
        | some w =>
          match read32_run probe elapsedGen timeout fuel rest b' with
          | .ok ws b'' => .ok (w :: ws) b''
          | .err e b'' => .err e b''
          | .panic => .panic
          | .fuelOut => .fuelOut := rfl

lemma write32_run_cons (probe : Nat → Nat → Bool) (elapsedGen : Nat → Nat → Nat)
    (timeout fuel : Nat) (p : Nat × Nat) (rest : List (Nat × Nat)) (b : Bridge) :
    write32_run probe elapsedGen timeout fuel (p :: rest) b =
      match write_ddata_with_timeout probe (elapsedGen b.nd) (.u32 p.2)
          (if rest.isEmpty then .lastTransaction else .continuingTransaction)
          timeout fuel b with
      | .panic => .panic
      | .fuelOut => .fuelOut
      | .err e b' => .err e b'
      | .ok _ b' => write32_run probe elapsedGen timeout fuel rest b' := by
  rcases p with ⟨i, w⟩
  rfl

lemma read32_run_done (probe : Nat → Nat → Bool) (elapsedGen : Nat → Nat → Nat)
    (timeout fuel : Nat) (hdone : ∀ nd, probe nd 32 = true) (hfuel : 1 ≤ fuel) :
    ∀ run : List Nat, run ≠ [] → ∀ b : Bridge,
      b.st = ⟨some .u32, some .rd⟩ →
      ∃ ws b', read32_run probe elapsedGen timeout fuel run b = .ok ws b' ∧
        b'.trace = b.trace ++ read32RunShifts run ∧
        b'.nd = b.nd + run.length ∧ b'.st = ⟨none, none⟩ := by
  intro run
  induction run with
  | nil => intro h; exact absurd rfl h
  | cons x rest ih =>
    intro _ b hst
    cases rest with
    | nil =>
      have hdd := read_ddata_with_timeout_done probe (elapsedGen b.nd) .lastTransaction
        timeout fuel b .u32 (hdone b.nd) hfuel (by rw [hst]) (by rw [hst])
        (fun h => nomatch h)
      rw [if_pos rfl] at hdd
      refine ⟨[loadBE (probe b.nd) 0 4],
        { st := ⟨none, none⟩,
          trace := b.trace ++ [.ddata .lastTransaction [0, 0, 0, 0]],
          nd := b.nd + 1 }, ?_, by simp [read32RunShifts], by simp, rfl⟩
      have hseq : (if ([] : List Nat).isEmpty = true then SeqFlag.lastTransaction
          else SeqFlag.continuingTransaction) = SeqFlag.lastTransaction := rfl
      rw [read32_run_cons, hseq]
      simp only [hdd, readDecode, TransactionData.asU32, read32_run]
    | cons y t =>
      have hdd := read_ddata_with_timeout_done probe (elapsedGen b.nd)
        .continuingTransaction timeout fuel b .u32 (hdone b.nd) hfuel (by rw [hst])
        (by rw [hst]) (fun _ => rfl)
      rw [if_neg (by decide)] at hdd
      obtain ⟨ws', b', hrun, htrace, hnd, hst'⟩ := ih (by simp)
        { b with
          trace := b.trace ++ [Shift.ddata SeqFlag.continuingTransaction [0, 0, 0, 0]]
          nd := b.nd + 1 } (by rw [hst])
      refine ⟨loadBE (probe b.nd) 0 4 :: ws', b', ?_, ?_, ?_, hst'⟩
      · have hseq : (if (y :: t).isEmpty = true then SeqFlag.lastTransaction
            else SeqFlag.continuingTransaction) = SeqFlag.continuingTransaction := rfl
        rw [read32_run_cons, hseq]
        simp only [hdd, readDecode, TransactionData.asU32, hrun]
      · rw [htrace]
        simp [read32RunShifts]
      · rw [hnd]
        simp
        omega

lemma write32_run_done (probe : Nat → Nat → Bool) (elapsedGen : Nat → Nat → Nat)
    (timeout fuel : Nat) (hdone : ∀ nd, probe nd 32 = true) (hfuel : 1 ≤ fuel) :
    ∀ run : List (Nat × Nat), run ≠ [] → ∀ b : Bridge,
      b.st = ⟨some .u32, some .wr⟩ →
      ∃ b', write32_run probe elapsedGen timeout fuel run b = .ok () b' ∧
        b'.trace = b.trace ++ write32RunShifts run ∧
        b'.nd = b.nd + run.length ∧ b'.st = ⟨none, none⟩ := by
  intro run
  induction run with
  | nil => intro h; exact absurd rfl h
  | cons p rest ih =>
    obtain ⟨idx, w⟩ := p
    intro _ b hst
    cases rest with
    | nil =>
      have hdd := write_ddata_with_timeout_done probe (elapsedGen b.nd) (.u32 w)
        .lastTransaction timeout fuel b (hdone b.nd) hfuel (by rw [hst])
        (by rw [hst]; rfl) (fun h => nomatch h)
      rw [if_pos rfl] at hdd
      refine ⟨
        { st := ⟨none, none⟩,
          trace := b.trace ++
            [Shift.ddata SeqFlag.lastTransaction (TransactionData.u32 w).encode],
          nd := b.nd + 1 }, ?_, by simp [write32RunShifts], by simp, rfl⟩
      have hseq : (if ([] : List (Nat × Nat)).isEmpty = true then SeqFlag.lastTransaction
          else SeqFlag.continuingTransaction) = SeqFlag.lastTransaction := rfl
      rw [write32_run_cons, hseq]
      simp only [hdd, write32_run]
    | cons q t =>
      have hdd := write_ddata_with_timeout_done probe (elapsedGen b.nd) (.u32 w)
        .continuingTransaction timeout fuel b (hdone b.nd) hfuel (by rw [hst])
        (by rw [hst]; rfl) (fun _ => rfl)
      rw [if_neg (by decide)] at hdd
      obtain ⟨b', hrun, htrace, hnd, hst'⟩ := ih (by simp)
        { b with
          trace := b.trace ++
            [Shift.ddata SeqFlag.continuingTransaction (TransactionData.u32 w).encode]
          nd := b.nd + 1 } (by rw [hst])
      refine ⟨b', ?_, ?_, ?_, hst'⟩
      · have hseq : (if (q :: t).isEmpty = true then SeqFlag.lastTransaction
            else SeqFlag.continuingTransaction) = SeqFlag.continuingTransaction := rfl
        rw [write32_run_cons, hseq]
        simp only [hdd, hrun]
      · rw [htrace]
        simp [write32RunShifts]
      · rw [hnd]
        simp
        omega

lemma read32_chunks_run_cons (probe : Nat → Nat → Bool) (elapsedGen : Nat → Nat → Nat)
    (timeout fuel address k : Nat) (run : List Nat) (rest : List (Nat × List Nat))
    (b : Bridge) :
    read32_chunks_run probe elapsedGen timeout fuel address ((k, run) :: rest) b =
      match read32_run probe elapsedGen timeout fuel run
          (write_adata (max address (k * 1024)) .rd .u32 b) with
      | .ok ws b2 =>
        match read32_chunks_run probe elapsedGen timeout fuel address rest b2 with
        | .ok ws' b3 => .ok (ws ++ ws') b3
        | .err e b3 => .err e b3
        | .panic => .panic
        | .fuelOut => .fuelOut
      | .err e b2 => .err e b2
      | .panic => .panic
      | .fuelOut => .fuelOut := rfl

lemma write32_chunks_run_cons (probe : Nat → Nat → Bool) (elapsedGen : Nat → Nat → Nat)
    (timeout fuel address k : Nat) (run : List (Nat × Nat))
    (rest : List (Nat × List (Nat × Nat))) (b : Bridge) :
    write32_chunks_run probe elapsedGen timeout fuel address ((k, run) :: rest) b =
      match write32_run probe elapsedGen timeout fuel run
          (write_adata (max address (k * 1024)) .wr .u32 b) with
      | .ok _ b2 => write32_chunks_run probe elapsedGen timeout fuel address rest b2
      | .err e b2 => .err e b2
      | .panic => .panic
      | .fuelOut => .fuelOut := rfl

lemma read32_chunks_run_done (probe : Nat → Nat → Bool) (elapsedGen : Nat → Nat → Nat)
    (timeout fuel address : Nat) (hdone : ∀ nd, probe nd 32 = true) (hfuel : 1 ≤ fuel) :
    ∀ cl : List (Nat × List Nat), (∀ p ∈ cl, p.2 ≠ []) → ∀ b : Bridge,
      ∃ ws b', read32_chunks_run probe elapsedGen timeout fuel address cl b =
          .ok ws b' ∧
        b'.trace = b.trace ++ cl.flatMap
          (fun p => .adata .rd .u32 (max address (p.1 * 1024)) :: read32RunShifts p.2) := by
  intro cl
  induction cl with
  | nil =>
    intro _ b
    exact ⟨[], b, rfl, by simp⟩
  | cons p rest ih =>
    obtain ⟨k, run⟩ := p
    intro hne b
    obtain ⟨ws, b2, hr, htr2, hnd2, hst2⟩ :=
      read32_run_done probe elapsedGen timeout fuel hdone hfuel run
        (hne (k, run) (List.mem_cons_self _ _))
        (write_adata (max address (k * 1024)) .rd .u32 b) rfl
    obtain ⟨ws', b3, hr3, htr3⟩ := ih
      (fun q hq => hne q (List.mem_cons_of_mem _ hq)) b2
    refine ⟨ws ++ ws', b3, ?_, ?_⟩
    · rw [read32_chunks_run_cons]
      simp only [hr, hr3]
    · rw [htr3, htr2]
      simp [write_adata]

lemma write32_chunks_run_done (probe : Nat → Nat → Bool) (elapsedGen : Nat → Nat → Nat)
    (timeout fuel address : Nat) (hdone : ∀ nd, probe nd 32 = true) (hfuel : 1 ≤ fuel) :
    ∀ cl : List (Nat × List (Nat × Nat)), (∀ p ∈ cl, p.2 ≠ []) → ∀ b : Bridge,
      ∃ b', write32_chunks_run probe elapsedGen timeout fuel address cl b =
          .ok () b' ∧
        b'.trace = b.trace ++ cl.flatMap
          (fun p => .adata .wr .u32 (max address (p.1 * 1024)) :: write32RunShifts p.2) := by
  intro cl
  induction cl with
  | nil =>
    intro _ b
    exact ⟨b, rfl, by simp⟩
  | cons p rest ih =>
    obtain ⟨k, run⟩ := p
    intro hne b
    obtain ⟨b2, hr, htr2, hnd2, hst2⟩ :=
      write32_run_done probe elapsedGen timeout fuel hdone hfuel run
        (hne (k, run) (List.mem_cons_self _ _))
        (write_adata (max address (k * 1024)) .wr .u32 b) rfl
    obtain ⟨b3, hr3, htr3⟩ := ih (fun q hq => hne q (List.mem_cons_of_mem _ hq)) b2
    refine ⟨b3, ?_, ?_⟩
    · rw [write32_chunks_run_cons]
      simp only [hr, hr3]
    · rw [htr3, htr2]
      simp [write_adata]

/-- C1: for a 4-byte-aligned address and N words (in bounds, with every
DDATA poll completing), `read32_with_timeout` and `write32_with_timeout`
partition the words into the maximal contiguous runs sharing
`⌊(addr + i*4)/1024⌋` — concatenating the runs restores the index list,
every element of a run has the run's key (so no run holds two words
whose `⌊a/1024⌋` differ), and adjacent runs have distinct keys — and the
emitted shift trace is exactly: per run one ADATA (Word width, at
`max(addr, group_idx*1024)`) followed by one DDATA shift per word with
SEQ=1 on all but the run's last, which uses SEQ=0 (a one-word run using
SEQ=0 on its sole shift). -/
theorem c1_burst_partitioning (probe : Nat → Nat → Bool)
    (elapsedGen : Nat → Nat → Nat) (timeout fuel address n : Nat)
    (data : List Nat)
    (h4 : address % 4 = 0)
    (h1 : n * 4 ≤ 4294967295) (h2 : address + n * 4 ≤ 4294967296)
    (hd1 : data.length * 4 ≤ 4294967295)
    (hd2 : address + data.length * 4 ≤ 4294967296)
    (hdone : ∀ nd, probe nd 32 = true) (hfuel : 1 ≤ fuel) :
    (∃ ws b', read32_with_timeout probe elapsedGen address n timeout fuel
        Bridge.new = .ok ws b' ∧ b'.trace = read32ExpectedTrace address n) ∧
    (∃ b', write32_with_timeout probe elapsedGen address data timeout fuel
        Bridge.new = .ok () b' ∧ b'.trace = write32ExpectedTrace address data) ∧
    (chunkByKey (burstKey address) (List.range n)).flatMap Prod.snd =
      List.range n ∧
    (∀ p ∈ chunkByKey (burstKey address) (List.range n),
      p.2 ≠ [] ∧ ∀ i ∈ p.2, burstKey address i = p.1) ∧
    List.Chain' (fun a b : Nat × List Nat => a.1 ≠ b.1)
      (chunkByKey (burstKey address) (List.range n)) ∧
    (chunkByKey (fun q => burstKey address q.1) data.enum).flatMap Prod.snd =
      data.enum ∧
    (∀ p ∈ chunkByKey (fun q => burstKey address q.1) data.enum,
      p.2 ≠ [] ∧ ∀ q ∈ p.2, burstKey address q.1 = p.1) ∧
    List.Chain' (fun a b : Nat × List (Nat × Nat) => a.1 ≠ b.1)
      (chunkByKey (fun q => burstKey address q.1) data.enum) := by
  refine ⟨?_, ?_, chunkByKey_flatten _ _, chunkByKey_runs _ _, chunkByKey_chain _ _,
    chunkByKey_flatten _ _, chunkByKey_runs _ _, chunkByKey_chain _ _⟩
  · obtain ⟨ws, b', hr, htr⟩ :=
      read32_chunks_run_done probe elapsedGen timeout fuel address hdone hfuel
        (chunkByKey (burstKey address) (List.range n))
        (fun p hp => (chunkByKey_runs _ _ p hp).1) Bridge.new
    refine ⟨ws, b', ?_, ?_⟩
    · unfold read32_with_timeout
      rw [check_out_of_bounds_ok address (n * 4) h1 (by omega)]
      exact hr
    · rw [htr]
      rfl
  · obtain ⟨b', hr, htr⟩ :=
      write32_chunks_run_done probe elapsedGen timeout fuel address hdone hfuel
        (chunkByKey (fun q => burstKey address q.1) data.enum)
        (fun p hp => (chunkByKey_runs _ _ p hp).1) Bridge.new
    refine ⟨b', ?_, ?_⟩
    · unfold write32_with_timeout
      rw [check_out_of_bounds_ok address (data.length * 4) hd1 (by omega)]
      exact hr
    · rw [htr]
      rfl

/-- Witness for C1: a 4-word read at `0x3F8` straddling the 1 KiB
boundary splits into two runs, and a 2-word write at `0x4000_0000`
forms a single run; the traces follow the claimed shape. -/
theorem c1_burst_partitioning_witness :
    (∃ ws b', read32_with_timeout (fun _ _ => true) (fun _ _ => 0) 1016 4 0 1
        Bridge.new = .ok ws b' ∧ b'.trace = read32ExpectedTrace 1016 4) ∧
    (∃ b', write32_with_timeout (fun _ _ => true) (fun _ _ => 0) 1073741824
        [3735928559, 3405705229] 0 1 Bridge.new = .ok () b' ∧
      b'.trace = write32ExpectedTrace 1073741824 [3735928559, 3405705229]) :=
  ⟨(c1_burst_partitioning (fun _ _ => true) (fun _ _ => 0) 0 1 1016 4
      [3735928559, 3405705229] (by norm_num) (by norm_num) (by norm_num)
      (by norm_num) (by norm_num) (fun _ => rfl) (le_refl 1)).1,
   (c1_burst_partitioning (fun _ _ => true) (fun _ _ => 0) 0 1 1073741824 0
      [3735928559, 3405705229] (by norm_num) (by norm_num) (by norm_num)
      (by norm_num) (by norm_num) (fun _ => rfl) (le_refl 1)).2.1⟩
